import Mathlib

/-!
Verification of the research-radar pipeline (src/run.py, src/util_state.py,
src/search_arxiv.py, src/search_crossref.py, src/search_semantic_scholar.py)
against its natural-language specification.

Modelling conventions.

Paper records are Python dicts; we embed the keys that the verified
operations inspect (`id`, `doi`, `title`, `date`, `relevance_score`,
`summary`).  Keys that only feed the e-mail presentation layer
(`url`, `authors`, `abstract`, `source`, `venue`, `citation_count`) are
omitted: no operation under verification reads them.  A key that a dict
may lack (`id`, `doi`, `date`, `relevance_score`, `summary`) is embedded
as an `Option`; `dict.get(k)` is the field itself and `dict.get(k, d)`
is `getD d`.

The state store (`StateManager`) keeps `self.state`, a JSON document
`{ papers: { id: { sent_date, ...metadata } }, last_run }`.  A Python
dict is embedded as an insertion-ordered association list whose keys are
unique (assignment to an existing key updates in place).  Every method
is embedded as a function returning an `OpResult`: the new in-memory
state, the list of documents passed to `_save_state` (one per call, in
order), and the Python return value.  `_save_state` serialises the whole
document atomically, and `_load_state` of an intact file returns the
document that was saved, so persistence round-trips are the identity on
documents; a missing or corrupt file loads as the empty store.

External library calls are parameters: `datetime.fromisoformat(...)
.timestamp()` is `parse : String → Option Int` (`none` models a raised
`ValueError`), `datetime.utcnow` is an explicit `now` argument (an epoch
timestamp in seconds where compared, an ISO string where stored),
floating-point scores are embedded as rationals (exact on every value
the spec mentions).
-/

/-- A paper record as it flows through the pipeline: the fields of the
Python dict that the aggregator, state store and tier selection read. -/
structure Paper where
  id : Option String
  doi : Option String
  title : String
  date : Option String
  score : Option ℚ
  summary : Option String
deriving DecidableEq

/-- One value of the `papers` map of the state document: `sent_date`
plus the metadata merged in at mark time (`run.py` passes `title`). -/
structure SeenEntry where
  sent_date : Option String
  title : Option String
deriving DecidableEq

/-- The JSON state document of `StateManager`:
`{ "papers": {...}, "last_run": ... }`. -/
structure SMState where
  papers : List (String × SeenEntry)
  last_run : Option String
deriving DecidableEq

/-- Result of one `StateManager` method call: the manager state after
the call, the documents written by `_save_state` during the call, and
the method's return value. -/
structure OpResult (α : Type) where
  state : SMState
  writes : List SMState
  ret : α
deriving DecidableEq

/-- Python dict assignment `d[k] = v`: replaces the value in place if
the key exists, otherwise appends the binding. -/
def dictInsert (k : String) (v : SeenEntry) : List (String × SeenEntry) → List (String × SeenEntry)
  | [] => [(k, v)]
  | (k2, v2) :: rest => if k2 = k then (k, v) :: rest else (k2, v2) :: dictInsert k v rest

/-- `StateManager._load_state`: an intact file yields the stored
document; a missing or corrupt file yields the empty store. -/
def load_state (doc : Option SMState) : SMState :=
  match doc with
  | none => { papers := [], last_run := none }
  | some d => d

/-- `StateManager.get_seen_ids`: the key set of the persisted `papers`
map (embedded as the key list; membership is what the callers use). -/
def get_seen_ids (s : SMState) : List String :=
  s.papers.map Prod.fst

/-- `p.get('id') not in seen_ids` from `filter_unseen`: a missing `id`
is `None`, which is never a member of a set of strings. -/
def pyIdSeen (seen : List String) (p : Paper) : Bool :=
  match p.id with
  | none => false
  | some i => seen.contains i

/-- `StateManager.filter_unseen`: keep the papers whose `id` is not in
`get_seen_ids`.  Reads the state, writes nothing. -/
def filter_unseen (s : SMState) (papers : List Paper) : List Paper :=
  papers.filter (fun p => !(pyIdSeen (get_seen_ids s) p))

/-- `StateManager.filter_unseen` as a method call (state in, state out,
save log): the body only reads `self.state` and calls no `_save_state`. -/
def filterUnseenOp (s : SMState) (papers : List Paper) : OpResult (List Paper) :=
  { state := s, writes := [], ret := filter_unseen s papers }

/-- `StateManager.mark_as_sent`: for every id write
`{sent_date: now, **metadata.get(id, {})}` into `papers`, set
`last_run`, then `_save_state`.  `meta` gives the `title` value of
`paper_metadata[id]` (the only metadata key `run.py` passes; the
metadata dict carries no `sent_date` key). -/
def mark_as_sent (now : String) (paper_ids : List String) (meta : String → Option String) (s : SMState) : OpResult Unit :=
  let papers := paper_ids.foldl (fun m pid => dictInsert pid { sent_date := some now, title := meta pid } m) s.papers
  let s2 : SMState := { papers := papers, last_run := some now }
  { state := s2, writes := [s2], ret := () }

/-- The per-entry retention test of `cleanup_old_entries`: keep when
`sent_date` is missing, keep when `fromisoformat` raises, otherwise
keep exactly when the parsed timestamp is strictly newer than the
cutoff (`sent_timestamp > cutoff`). -/
def keepEntry (parse : String → Option Int) (cutoff : Int) (e : SeenEntry) : Bool :=
  match e.sent_date with
  | none => true
  | some d =>
    match parse d with
    | none => true
    | some ts => cutoff < ts

/-- `StateManager.cleanup_old_entries`: filter `papers` by the retention
test against `cutoff = now - days*24*60*60`, then `_save_state`. -/
def cleanup_old_entries (parse : String → Option Int) (now : Int) (days : Int) (s : SMState) : OpResult Unit :=
  let cutoff := now - days * 24 * 60 * 60
  let cleaned := s.papers.filter (fun kv => keepEntry parse cutoff kv.2)
  let s2 : SMState := { papers := cleaned, last_run := s.last_run }
  { state := s2, writes := [s2], ret := () }

-- Association-list lemmas used by several claims.

theorem dictInsert_cons_eq (k : String) (v : SeenEntry) (k3 : String) (v3 : SeenEntry) (rest : List (String × SeenEntry)) (h : k3 = k) :
    dictInsert k v ((k3, v3) :: rest) = (k, v) :: rest := by
  simp [dictInsert, h]

theorem dictInsert_cons_ne (k : String) (v : SeenEntry) (k3 : String) (v3 : SeenEntry) (rest : List (String × SeenEntry)) (h : ¬ k3 = k) :
    dictInsert k v ((k3, v3) :: rest) = (k3, v3) :: dictInsert k v rest := by
  simp [dictInsert, h]

theorem mem_keys_dictInsert (k k2 : String) (v : SeenEntry) (m : List (String × SeenEntry)) :
    k2 ∈ (dictInsert k v m).map Prod.fst ↔ k2 = k ∨ k2 ∈ m.map Prod.fst := by
  induction m with
  | nil => simp [dictInsert]
  | cons kv rest ih =>
    obtain ⟨k3, v3⟩ := kv
    by_cases h : k3 = k
    · subst h
      rw [dictInsert_cons_eq k3 v k3 v3 rest rfl]
      simp only [List.map_cons, List.mem_cons]
      tauto
    · rw [dictInsert_cons_ne k v k3 v3 rest h]
      simp only [List.map_cons, List.mem_cons, ih]
      tauto

theorem lookup_dictInsert_self (k : String) (v : SeenEntry) (m : List (String × SeenEntry)) :
    (dictInsert k v m).lookup k = some v := by
  induction m with
  | nil => simp [dictInsert, List.lookup]
  | cons kv rest ih =>
    obtain ⟨k3, v3⟩ := kv
    by_cases h : k3 = k
    · subst h
      simp [dictInsert, List.lookup]
    · simp only [dictInsert, if_neg h]
      simp only [List.lookup, beq_eq_false_iff_ne.mpr (Ne.symm h)]
      exact ih

theorem lookup_dictInsert_other (k k2 : String) (hne : k2 ≠ k) (v : SeenEntry) (m : List (String × SeenEntry)) :
    (dictInsert k v m).lookup k2 = m.lookup k2 := by
  induction m with
  | nil => simp [dictInsert, List.lookup, beq_eq_false_iff_ne.mpr hne]
  | cons kv rest ih =>
    obtain ⟨k3, v3⟩ := kv
    by_cases h : k3 = k
    · subst h
      simp [dictInsert, List.lookup, beq_eq_false_iff_ne.mpr hne]
    · by_cases h2 : k2 = k3
      · subst h2
        simp [dictInsert, if_neg h, List.lookup]
      · simp only [dictInsert, if_neg h]
        simp only [List.lookup, beq_eq_false_iff_ne.mpr h2]
        exact ih

theorem lookup_markFold_not_mem (now : String) (meta : String → Option String) (ids : List String) (i : String) :
    i ∉ ids → ∀ m : List (String × SeenEntry),
      (ids.foldl (fun acc pid => dictInsert pid { sent_date := some now, title := meta pid } acc) m).lookup i
        = m.lookup i := by
  induction ids with
  | nil => intro _ m; rfl
  | cons j rest ih =>
    intro hm m
    simp only [List.mem_cons, not_or] at hm
    simp only [List.foldl_cons]
    rw [ih hm.2 _, lookup_dictInsert_other j i hm.1 _ m]

theorem lookup_markFold_mem (now : String) (meta : String → Option String) (ids : List String) (i : String) :
    i ∈ ids → ∀ m : List (String × SeenEntry),
      (ids.foldl (fun acc pid => dictInsert pid { sent_date := some now, title := meta pid } acc) m).lookup i
        = some { sent_date := some now, title := meta i } := by
  induction ids with
  | nil => intro h; cases h
  | cons j rest ih =>
    intro hm m
    simp only [List.foldl_cons]
    by_cases hr : i ∈ rest
    · exact ih hr _
    · have hij : i = j := by
        rcases List.mem_cons.mp hm with h | h
        · exact h
        · exact absurd h hr
      subst hij
      rw [lookup_markFold_not_mem now meta rest i hr _, lookup_dictInsert_self i _ m]

theorem mem_keys_of_lookup (m : List (String × SeenEntry)) (i : String) (e : SeenEntry) :
    m.lookup i = some e → i ∈ m.map Prod.fst := by
  induction m with
  | nil => intro h; cases h
  | cons kv rest ih =>
    obtain ⟨k3, v3⟩ := kv
    intro h
    by_cases hk : i = k3
    · simp [hk]
    · simp only [List.lookup, beq_eq_false_iff_ne.mpr hk] at h
      simp [ih h]

theorem lookup_filter_of_nodup (f : String × SeenEntry → Bool) (m : List (String × SeenEntry)) :
    (m.map Prod.fst).Nodup → ∀ (i : String) (e : SeenEntry),
      (m.filter f).lookup i = some e → m.lookup i = some e := by
  induction m with
  | nil => intro _ i e h; simp [List.filter] at h
  | cons kv rest ih =>
    obtain ⟨k3, v3⟩ := kv
    intro hm i e h
    simp only [List.map_cons, List.nodup_cons] at hm
    by_cases hk : i = k3
    · subst hk
      by_cases hf : f (i, v3)
      · rw [List.filter_cons_of_pos hf] at h
        simpa [List.lookup] using h
      · rw [List.filter_cons_of_neg hf] at h
        exfalso
        have hmem : i ∈ (List.filter f rest).map Prod.fst := mem_keys_of_lookup _ _ _ h
        exact hm.1 (List.Sublist.mem hmem (List.Sublist.map Prod.fst (List.filter_sublist rest)))
    · by_cases hf : f (k3, v3)
      · rw [List.filter_cons_of_pos hf] at h
        simp only [List.lookup, beq_eq_false_iff_ne.mpr hk] at h ⊢
        exact ih hm.2 i e h
      · rw [List.filter_cons_of_neg hf] at h
        simp only [List.lookup, beq_eq_false_iff_ne.mpr hk]
        exact ih hm.2 i e h

-- C10 --------------------------------------------------------------------

/-- Claim C10: `filter_unseen` is read-only: it leaves the manager's
in-memory state unchanged, performs no write to the state file, and
repeating it on the resulting state returns the same list. -/
theorem c10_filter_unseen_readonly (s : SMState) (papers : List Paper) :
    (filterUnseenOp s papers).state = s ∧
    (filterUnseenOp s papers).writes = [] ∧
    (filterUnseenOp (filterUnseenOp s papers).state papers).ret = (filterUnseenOp s papers).ret := by
  exact ⟨rfl, rfl, rfl⟩

-- C2 ---------------------------------------------------------------------

/-- Claim C2: after `mark_as_sent([id])` completes, every subsequent
`filter_unseen` call (on the in-memory state, and on a state reloaded
from any document the call persisted) excludes every paper whose `id`
field equals that id. -/
theorem c2_mark_then_filter_excludes (i : String) (hne : i ≠ "") (now : String) (meta : String → Option String) (s : SMState) :
    (∀ ps, ∀ p ∈ filter_unseen (mark_as_sent now [i] meta s).state ps, p.id ≠ some i) ∧
    (∀ d ∈ (mark_as_sent now [i] meta s).writes, ∀ ps, ∀ p ∈ filter_unseen (load_state (some d)) ps, p.id ≠ some i) := by
  have hkey : ∀ (st : SMState), st = (mark_as_sent now [i] meta s).state →
      ∀ ps, ∀ p ∈ filter_unseen st ps, p.id ≠ some i := by
    rintro st rfl ps p hp hid
    have hmem := List.mem_filter.mp hp
    have hseen : pyIdSeen (get_seen_ids (mark_as_sent now [i] meta s).state) p = false := by
      simpa using hmem.2
    simp only [pyIdSeen, hid] at hseen
    have hin : i ∈ get_seen_ids (mark_as_sent now [i] meta s).state := by
      show i ∈ ((mark_as_sent now [i] meta s).state.papers).map Prod.fst
      show i ∈ (dictInsert i { sent_date := some now, title := meta i } s.papers).map Prod.fst
      exact (mem_keys_dictInsert i i _ s.papers).mpr (Or.inl rfl)
    have htrue : (get_seen_ids (mark_as_sent now [i] meta s).state).contains i = true :=
      List.elem_eq_true_of_mem hin
    rw [htrue] at hseen
    exact Bool.noConfusion hseen
  refine ⟨hkey _ rfl, ?_⟩
  intro d hd ps p hp
  have hdw : d = (mark_as_sent now [i] meta s).state := by
    simpa [mark_as_sent] using hd
  exact hkey (load_state (some d)) (by rw [hdw]; rfl) ps p hp

/-- Witness for C2 at a concrete store, id and two-paper list: the
surviving paper of the filtered list does not carry the marked id. -/
theorem c2_witness :
    ({ id := some "other", doi := none, title := "O", date := none, score := none, summary := none } : Paper).id
      ≠ some "2405.00001" :=
  (c2_mark_then_filter_excludes "2405.00001" (by decide) "2024-05-01T00:00:00" (fun _ => some "T") { papers := [], last_run := none }).1
    [{ id := some "2405.00001", doi := none, title := "T", date := none, score := none, summary := none },
     { id := some "other", doi := none, title := "O", date := none, score := none, summary := none }]
    { id := some "other", doi := none, title := "O", date := none, score := none, summary := none }
    (by decide)

-- Helper facts about Bool-valued membership tests.

theorem contains_eq_false_iff (l : List String) (a : String) :
    l.contains a = false ↔ a ∉ l := by
  rw [Bool.eq_false_iff]
  constructor
  · intro h hm
    exact h (List.elem_eq_true_of_mem hm)
  · intro h hc
    exact h (List.mem_of_elem_eq_true hc)

theorem pyIdSeen_false_iff (seen : List String) (p : Paper) :
    pyIdSeen seen p = false ↔ ∀ i, p.id = some i → i ∉ seen := by
  cases hid : p.id with
  | none => simp [pyIdSeen, hid]
  | some j =>
    simp only [pyIdSeen, hid, contains_eq_false_iff]
    constructor
    · intro h i hji
      cases hji
      exact h
    · intro h
      exact h j rfl

-- C6 ---------------------------------------------------------------------

/-- Counterexample to claim C6 as stated: a paper whose `id` field is
the empty string IS filtered out by `filter_unseen` when the persisted
map happens to contain the empty string as a key, so "a paper whose id
is empty is never filtered by this check" fails on such a store. -/
theorem c6_empty_id_filtered_cex :
    (let st : SMState := { papers := [("", { sent_date := some "2024-01-01T00:00:00", title := none })], last_run := none }
     let p : Paper := { id := some "", doi := none, title := "t", date := none, score := none, summary := none }
     filter_unseen st [p] = [] ∧ p.id = some "") := by
  decide

/-- Claim C6 (amended): `filter_unseen` returns exactly the sublist, in
input order, of the papers whose `id` is absent from the persisted
papers map; every paper with a missing `id` is retained; a paper whose
`id` is the empty string is retained provided the empty string is not a
key of the store (stores produced by the pipeline never contain it,
since `run.py` only marks truthy ids). -/
theorem c6_filter_unseen_amended (s : SMState) (ps : List Paper) :
    (filter_unseen s ps).Sublist ps ∧
    (∀ p, p ∈ filter_unseen s ps ↔ p ∈ ps ∧ ∀ i, p.id = some i → i ∉ get_seen_ids s) ∧
    (∀ p ∈ ps, p.id = none → p ∈ filter_unseen s ps) := by
  refine ⟨List.filter_sublist ps, ?_, ?_⟩
  · intro p
    rw [filter_unseen, List.mem_filter]
    constructor
    · rintro ⟨hp, hb⟩
      refine ⟨hp, (pyIdSeen_false_iff _ _).mp ?_⟩
      simpa using hb
    · rintro ⟨hp, hids⟩
      refine ⟨hp, ?_⟩
      simpa using (pyIdSeen_false_iff _ _).mpr hids
  · intro p hp hid
    rw [filter_unseen, List.mem_filter]
    refine ⟨hp, ?_⟩
    simp [pyIdSeen, hid]

/-- Witness for the amended C6 at a concrete store and paper list. -/
theorem c6_witness :
    ({ id := none, doi := none, title := "no id", date := none, score := none, summary := none } : Paper) ∈
      filter_unseen { papers := [("x", { sent_date := some "2024-01-01T00:00:00", title := none })], last_run := none }
        [{ id := none, doi := none, title := "no id", date := none, score := none, summary := none }] :=
  (c6_filter_unseen_amended
      { papers := [("x", { sent_date := some "2024-01-01T00:00:00", title := none })], last_run := none }
      [{ id := none, doi := none, title := "no id", date := none, score := none, summary := none }]).2.2
    _ (by decide) rfl

-- C7 ---------------------------------------------------------------------

theorem keepEntry_true_iff (parse : String → Option Int) (cutoff : Int) (e : SeenEntry) :
    keepEntry parse cutoff e = true ↔
      (e.sent_date = none ∨ ∃ d, e.sent_date = some d ∧
        (parse d = none ∨ ∃ ts, parse d = some ts ∧ cutoff < ts)) := by
  cases hd : e.sent_date with
  | none => simp [keepEntry, hd]
  | some d =>
    cases hp : parse d with
    | none => simp [keepEntry, hd, hp]
    | some ts => simp [keepEntry, hd, hp]

/-- Counterexample to claim C7 as stated: an entry whose `sent_date`
parses to EXACTLY `now - days*24*60*60` is not older than the cutoff,
yet `cleanup_old_entries` removes it (the code keeps only strictly
newer timestamps: `sent_timestamp > cutoff`). -/
theorem c7_cutoff_boundary_cex :
    (let parse : String → Option Int := fun d => if d = "E" then some 86400 else none
     let s : SMState := { papers := [("e", { sent_date := some "E", title := none })], last_run := none }
     (cleanup_old_entries parse 2678400 30 s).state.papers = [] ∧
     parse "E" = some (2678400 - 30 * (24 * 60 * 60))) := by
  decide

/-- Claim C7 (amended): `cleanup_old_entries(days)` removes exactly the
entries whose `sent_date` parses to a timestamp NOT STRICTLY NEWER than
`now - days*24*60*60` (so an entry exactly at the cutoff is also
removed; the 31-days-old entry is removed, the 29-days-old one is
retained); every entry whose `sent_date` is missing or unparseable is
retained regardless of age; all retained entries are unchanged and keep
their order, and `last_run` is untouched. -/
theorem c7_cleanup_amended (parse : String → Option Int) (now days : Int) (s : SMState) :
    (∀ kv : String × SeenEntry, kv ∈ (cleanup_old_entries parse now days s).state.papers ↔
        kv ∈ s.papers ∧
          (kv.2.sent_date = none ∨ ∃ d, kv.2.sent_date = some d ∧
            (parse d = none ∨ ∃ ts, parse d = some ts ∧ now - days * 24 * 60 * 60 < ts))) ∧
    ((cleanup_old_entries parse now days s).state.papers).Sublist s.papers ∧
    (cleanup_old_entries parse now days s).state.last_run = s.last_run := by
  refine ⟨?_, List.filter_sublist s.papers, rfl⟩
  intro kv
  have hshow : (cleanup_old_entries parse now days s).state.papers
      = s.papers.filter (fun kv2 => keepEntry parse (now - days * 24 * 60 * 60) kv2.2) := rfl
  rw [hshow, List.mem_filter, keepEntry_true_iff]

/-- Witness for the amended C7: with `now` 31 days after epoch and a
30-day window, the 31-days-old entry is removed, the 29-days-old entry,
the entry without a date and the entry with an unparseable date are
retained, and `last_run` is unchanged. -/
theorem c7_witness :
    (("b", { sent_date := some "B", title := none }) ∈
        (cleanup_old_entries (fun d => if d = "A" then some 0 else if d = "B" then some 172800 else none) 2678400 30
          { papers := [("a", { sent_date := some "A", title := none }), ("b", { sent_date := some "B", title := none }), ("c", { sent_date := none, title := none }), ("u", { sent_date := some "garbage", title := none })], last_run := some "L" }).state.papers) ∧
    (("a", ({ sent_date := some "A", title := none } : SeenEntry)) ∉
        (cleanup_old_entries (fun d => if d = "A" then some 0 else if d = "B" then some 172800 else none) 2678400 30
          { papers := [("a", { sent_date := some "A", title := none }), ("b", { sent_date := some "B", title := none }), ("c", { sent_date := none, title := none }), ("u", { sent_date := some "garbage", title := none })], last_run := some "L" }).state.papers) ∧
    (("c", ({ sent_date := none, title := none } : SeenEntry)) ∈
        (cleanup_old_entries (fun d => if d = "A" then some 0 else if d = "B" then some 172800 else none) 2678400 30
          { papers := [("a", { sent_date := some "A", title := none }), ("b", { sent_date := some "B", title := none }), ("c", { sent_date := none, title := none }), ("u", { sent_date := some "garbage", title := none })], last_run := some "L" }).state.papers) ∧
    (("u", ({ sent_date := some "garbage", title := none } : SeenEntry)) ∈
        (cleanup_old_entries (fun d => if d = "A" then some 0 else if d = "B" then some 172800 else none) 2678400 30
          { papers := [("a", { sent_date := some "A", title := none }), ("b", { sent_date := some "B", title := none }), ("c", { sent_date := none, title := none }), ("u", { sent_date := some "garbage", title := none })], last_run := some "L" }).state.papers) ∧
    (cleanup_old_entries (fun d => if d = "A" then some 0 else if d = "B" then some 172800 else none) 2678400 30
          { papers := [("a", { sent_date := some "A", title := none }), ("b", { sent_date := some "B", title := none }), ("c", { sent_date := none, title := none }), ("u", { sent_date := some "garbage", title := none })], last_run := some "L" }).state.last_run = some "L" := by
  have h := c7_cleanup_amended (fun d => if d = "A" then some 0 else if d = "B" then some 172800 else none) 2678400 30
    { papers := [("a", { sent_date := some "A", title := none }), ("b", { sent_date := some "B", title := none }), ("c", { sent_date := none, title := none }), ("u", { sent_date := some "garbage", title := none })], last_run := some "L" }
  refine ⟨(h.1 _).mpr ⟨by decide, Or.inr ⟨"B", rfl, Or.inr ⟨172800, by decide, by decide⟩⟩⟩, ?_, (h.1 _).mpr ⟨by decide, Or.inl rfl⟩, (h.1 _).mpr ⟨by decide, Or.inr ⟨"garbage", rfl, Or.inl (by decide)⟩⟩, h.2.2.trans rfl⟩
  intro hmem
  have hc := ((h.1 _).mp hmem).2
  rcases hc with hnone | ⟨d, hd, hrest⟩
  · exact Option.noConfusion hnone
  · have hdA : d = "A" := by
      have := Option.some.inj hd
      exact this.symm
    subst hdA
    rcases hrest with hpn | ⟨ts, hts, hlt⟩
    · simp at hpn
    · have h0 : ts = 0 := by
        simp at hts
        exact hts.symm
      subst h0
      norm_num at hlt

-- C8 ---------------------------------------------------------------------

/-- Counterexample to claim C8 as stated: a second `mark_as_sent` call
containing an id already present in the store DOES alter the existing
entry — it overwrites it with a fresh `sent_date` and the new call's
metadata (`papers[paper_id] = {...}` is unconditional). -/
theorem c8_remark_overwrites_cex :
    (let s : SMState := { papers := [("a", { sent_date := some "2024-01-01T00:00:00", title := some "Old" })], last_run := some "2024-01-01T00:00:00" }
     let meta : String → Option String := fun i => if i = "a" then some "New" else none
     (mark_as_sent "2024-02-02T00:00:00" ["a"] meta s).state.papers.lookup "a" =
        some { sent_date := some "2024-02-02T00:00:00", title := some "New" } ∧
     s.papers.lookup "a" = some { sent_date := some "2024-01-01T00:00:00", title := some "Old" } ∧
     ({ sent_date := some "2024-02-02T00:00:00", title := some "New" } : SeenEntry) ≠
        { sent_date := some "2024-01-01T00:00:00", title := some "Old" }) := by
  decide

/-- Claim C8 (amended): for a store with unique keys, `mark_as_sent`
sets every marked id's entry to a fresh `sent_date: now` plus the new
call's metadata — overwriting an already-present entry rather than
leaving it unchanged — and leaves every unmarked id's entry unchanged;
`cleanup_old_entries` only deletes or preserves entries, never edits
one; `filter_unseen` touches nothing (claim C10). -/
theorem c8_store_mutation_amended (now : String) (ids : List String) (meta : String → Option String)
    (parse : String → Option Int) (nowTs days : Int) (s : SMState)
    (hnd : (s.papers.map Prod.fst).Nodup) :
    (∀ i ∈ ids, (mark_as_sent now ids meta s).state.papers.lookup i = some { sent_date := some now, title := meta i }) ∧
    (∀ i, i ∉ ids → (mark_as_sent now ids meta s).state.papers.lookup i = s.papers.lookup i) ∧
    (∀ (i : String) (e : SeenEntry), (cleanup_old_entries parse nowTs days s).state.papers.lookup i = some e →
        s.papers.lookup i = some e) := by
  refine ⟨?_, ?_, ?_⟩
  · intro i hi
    exact lookup_markFold_mem now meta ids i hi s.papers
  · intro i hi
    exact lookup_markFold_not_mem now meta ids i hi s.papers
  · intro i e h
    exact lookup_filter_of_nodup _ s.papers hnd i e h

/-- Witness for the amended C8 at a concrete two-entry store. -/
theorem c8_witness :
    ((mark_as_sent "T1" ["a"] (fun i => if i = "a" then some "N" else none)
        { papers := [("a", { sent_date := some "T0", title := some "Old" }), ("b", { sent_date := some "T0", title := none })], last_run := none }).state.papers.lookup "a"
      = some { sent_date := some "T1", title := some "N" }) ∧
    ((mark_as_sent "T1" ["a"] (fun i => if i = "a" then some "N" else none)
        { papers := [("a", { sent_date := some "T0", title := some "Old" }), ("b", { sent_date := some "T0", title := none })], last_run := none }).state.papers.lookup "b"
      = some { sent_date := some "T0", title := none }) := by
  have h := c8_store_mutation_amended "T1" ["a"] (fun i => if i = "a" then some "N" else none)
    (fun _ => none) 0 30
    { papers := [("a", { sent_date := some "T0", title := some "Old" }), ("b", { sent_date := some "T0", title := none })], last_run := none }
    (by decide)
  refine ⟨?_, ?_⟩
  · have := h.1 "a" (by decide)
    simpa using this
  · have := h.2.1 "b" (by decide)
    rw [this]
    decide

-- Stable descending sort.  Python's `list.sort(key=k, reverse=True)` is a
-- stable sort putting larger keys first; any stable algorithm realises it,
-- and insertion sort (inserting after all elements with a key not smaller)
-- is the one embedded here.  The facts proved below (permutation,
-- descending order, stability) characterise the Python output uniquely.

def insertDescBy {α κ : Type} (le : κ → κ → Bool) (key : α → κ) (x : α) : List α → List α
  | [] => [x]
  | y :: ys => if le (key x) (key y) then y :: insertDescBy le key x ys else x :: y :: ys

def sortDescBy {α κ : Type} (le : κ → κ → Bool) (key : α → κ) (l : List α) : List α :=
  l.foldl (fun acc x => insertDescBy le key x acc) []

-- Python string comparison: lexicographic on code points.

def charsLt : List Char → List Char → Bool
  | [], [] => false
  | [], _ :: _ => true
  | _ :: _, [] => false
  | a :: as, b :: bs =>
    if a.toNat < b.toNat then true
    else if b.toNat < a.toNat then false
    else charsLt as bs

/-- Python `a <= b` on strings: the negation of `b < a` under the
lexicographic code-point order. -/
def strLeB (a b : String) : Bool := !(charsLt b.toList a.toList)

theorem charsLt_asymm : ∀ l1 l2 : List Char, charsLt l1 l2 = true → charsLt l2 l1 = false := by
  intro l1
  induction l1 with
  | nil =>
    intro l2 h
    cases l2 with
    | nil => exact absurd h (by simp [charsLt])
    | cons b bs => simp [charsLt]
  | cons a as ih =>
    intro l2 h
    cases l2 with
    | nil => simp [charsLt] at h
    | cons b bs =>
      simp only [charsLt] at h ⊢
      by_cases h1 : a.toNat < b.toNat
      · have h2 : ¬ b.toNat < a.toNat := by omega
        simp [h1, h2]
      · by_cases h2 : b.toNat < a.toNat
        · simp [h1, h2] at h
        · simp only [h1, h2, if_false] at h ⊢
          exact ih bs h

theorem charsLt_neg_trans : ∀ l1 l2 l3 : List Char, charsLt l1 l2 = false → charsLt l2 l3 = false → charsLt l1 l3 = false := by
  intro l1
  induction l1 with
  | nil =>
    intro l2 l3 h1 h2
    cases l2 with
    | cons b bs => simp [charsLt] at h1
    | nil =>
      cases l3 with
      | nil => simp [charsLt]
      | cons c cs => simp [charsLt] at h2
  | cons a as ih =>
    intro l2 l3 h1 h2
    cases l3 with
    | nil => cases l2 <;> simp [charsLt]
    | cons c cs =>
      cases l2 with
      | nil => simp [charsLt] at h2
      | cons b bs =>
        simp only [charsLt] at h1 h2 ⊢
        by_cases hab : a.toNat < b.toNat
        · simp [hab] at h1
        · by_cases hbc : b.toNat < c.toNat
          · simp [hbc] at h2
          · by_cases hac : a.toNat < c.toNat
            · exact absurd hac (by omega)
            · simp only [hac, if_false]
              by_cases hca : c.toNat < a.toNat
              · simp [hca]
              · have hba : ¬ b.toNat < a.toNat := by omega
                have hcb : ¬ c.toNat < b.toNat := by omega
                simp only [hab, hba, if_false] at h1
                simp only [hbc, hcb, if_false] at h2
                simp only [hca, if_false]
                exact ih bs cs h1 h2

theorem strLeB_total (a b : String) : strLeB a b = true ∨ strLeB b a = true := by
  by_cases h : charsLt b.toList a.toList = true
  · right
    rw [strLeB, charsLt_asymm _ _ h]
    rfl
  · left
    rw [strLeB, Bool.eq_false_iff.mpr h]
    rfl

theorem strLeB_trans (a b c : String) (h1 : strLeB a b = true) (h2 : strLeB b c = true) : strLeB a c = true := by
  rw [strLeB, Bool.not_eq_true'] at h1 h2 ⊢
  exact charsLt_neg_trans c.toList b.toList a.toList h2 h1

theorem strLeB_empty_right (s : String) (h : strLeB s "" = true) : s = "" := by
  obtain ⟨d⟩ := s
  cases d with
  | nil => rfl
  | cons c cs =>
    exfalso
    rw [strLeB, Bool.not_eq_true'] at h
    simp [charsLt, String.toList] at h

-- Generic facts about the stable descending insertion sort.

theorem perm_insertDescBy {α κ : Type} (le : κ → κ → Bool) (key : α → κ) (x : α) (l : List α) :
    List.Perm (insertDescBy le key x l) (x :: l) := by
  induction l with
  | nil => exact List.Perm.refl _
  | cons y ys ih =>
    rw [insertDescBy]
    by_cases h : le (key x) (key y) = true
    · rw [if_pos h]
      exact (ih.cons y).trans (List.Perm.swap x y ys)
    · rw [if_neg h]

theorem pairwise_insertDescBy {α κ : Type} (le : κ → κ → Bool) (key : α → κ)
    (htot : ∀ a b, le a b = true ∨ le b a = true)
    (htrans : ∀ a b c, le a b = true → le b c = true → le a c = true) (x : α) :
    ∀ l, List.Pairwise (fun a b => le (key b) (key a) = true) l →
      List.Pairwise (fun a b => le (key b) (key a) = true) (insertDescBy le key x l) := by
  intro l
  induction l with
  | nil => intro _; simp [insertDescBy]
  | cons y ys ih =>
    intro hp
    have hp2 := List.pairwise_cons.mp hp
    rw [insertDescBy]
    by_cases h : le (key x) (key y) = true
    · rw [if_pos h, List.pairwise_cons]
      refine ⟨?_, ih hp2.2⟩
      intro z hz
      have hz2 := (perm_insertDescBy le key x ys).mem_iff.mp hz
      rcases List.mem_cons.mp hz2 with rfl | hzy
      · exact h
      · exact hp2.1 z hzy
    · rw [if_neg h, List.pairwise_cons]
      refine ⟨?_, hp⟩
      intro z hz
      have hyx : le (key y) (key x) = true := by
        rcases htot (key x) (key y) with h1 | h1
        · exact absurd h1 h
        · exact h1
      rcases List.mem_cons.mp hz with rfl | hzy
      · exact hyx
      · exact htrans _ _ _ (hp2.1 z hzy) hyx

theorem filter_insertDescBy {α κ : Type} [DecidableEq κ] (le : κ → κ → Bool) (key : α → κ)
    (htot : ∀ a b, le a b = true ∨ le b a = true) (x : α) (d : κ) :
    ∀ l, List.Pairwise (fun a b => le (key b) (key a) = true) l →
      (insertDescBy le key x l).filter (fun y => decide (key y = d))
        = if key x = d then l.filter (fun y => decide (key y = d)) ++ [x]
          else l.filter (fun y => decide (key y = d)) := by
  intro l
  induction l with
  | nil =>
    intro _
    by_cases h : key x = d
    · simp [insertDescBy, List.filter, h]
    · simp [insertDescBy, List.filter, h]
  | cons y ys ih =>
    intro hp
    have hp2 := List.pairwise_cons.mp hp
    rw [insertDescBy]
    by_cases h : le (key x) (key y) = true
    · rw [if_pos h, List.filter_cons, ih hp2.2]
      by_cases hy : key y = d <;> by_cases hx : key x = d <;>
        simp [hy, hx, List.filter_cons]
    · rw [if_neg h]
      by_cases hx : key x = d
      · have hnil : (y :: ys).filter (fun z => decide (key z = d)) = [] := by
          rw [List.filter_eq_nil_iff]
          intro z hz
          simp only [decide_eq_true_eq]
          intro hzd
          rcases List.mem_cons.mp hz with rfl | hzy
          · apply h
            rw [show key z = key x from hzd.trans hx.symm]
            rcases htot (key x) (key x) with h1 | h1
            · exact h1
            · exact h1
          · apply h
            rw [← show key z = key x from hzd.trans hx.symm]
            exact hp2.1 z hzy
        rw [if_pos hx, List.filter_cons_of_pos (by simp [hx]), hnil]
        simp
      · rw [if_neg hx, List.filter_cons_of_neg (by simp [hx])]

theorem sortDescBy_aux {α κ : Type} [DecidableEq κ] (le : κ → κ → Bool) (key : α → κ)
    (htot : ∀ a b, le a b = true ∨ le b a = true)
    (htrans : ∀ a b c, le a b = true → le b c = true → le a c = true) :
    ∀ (l acc : List α), List.Pairwise (fun a b => le (key b) (key a) = true) acc →
      List.Pairwise (fun a b => le (key b) (key a) = true) (l.foldl (fun a x => insertDescBy le key x a) acc) ∧
      List.Perm (l.foldl (fun a x => insertDescBy le key x a) acc) (acc ++ l) ∧
      ∀ d, (l.foldl (fun a x => insertDescBy le key x a) acc).filter (fun y => decide (key y = d))
        = acc.filter (fun y => decide (key y = d)) ++ l.filter (fun y => decide (key y = d)) := by
  intro l
  induction l with
  | nil =>
    intro acc hacc
    exact ⟨hacc, by simp, by simp⟩
  | cons x xs ih =>
    intro acc hacc
    simp only [List.foldl_cons]
    have hins := pairwise_insertDescBy le key htot htrans x acc hacc
    obtain ⟨P1, P2, P3⟩ := ih (insertDescBy le key x acc) hins
    refine ⟨P1, ?_, ?_⟩
    · refine P2.trans ?_
      refine ((perm_insertDescBy le key x acc).append_right xs).trans ?_
      exact List.perm_middle.symm
    · intro d
      rw [P3 d, filter_insertDescBy le key htot x d acc hacc]
      by_cases hx : key x = d
      · rw [if_pos hx, List.filter_cons_of_pos (by simp [hx])]
        simp
      · rw [if_neg hx, List.filter_cons_of_neg (by simp [hx])]

theorem sortDescBy_spec {α κ : Type} [DecidableEq κ] (le : κ → κ → Bool) (key : α → κ)
    (htot : ∀ a b, le a b = true ∨ le b a = true)
    (htrans : ∀ a b c, le a b = true → le b c = true → le a c = true) (l : List α) :
    List.Pairwise (fun a b => le (key b) (key a) = true) (sortDescBy le key l) ∧
    List.Perm (sortDescBy le key l) l ∧
    ∀ d, (sortDescBy le key l).filter (fun y => decide (key y = d))
      = l.filter (fun y => decide (key y = d)) := by
  obtain ⟨P1, P2, P3⟩ := sortDescBy_aux le key htot htrans l [] (List.Pairwise.nil)
  refine ⟨P1, by simpa using P2, ?_⟩
  intro d
  simpa using P3 d

-- Aggregator (run.py, search_papers): accumulate connector results in
-- connector-then-query order, dedup through one shared seen-id set, then
-- stable-sort by the raw date string, descending.

/-- `x.get('date', '')`: the sort key of the aggregator. -/
def dateKey (p : Paper) : String := p.date.getD ""

/-- One iteration of the accumulation loop of `search_papers` (run.py):
`key` is `paper.get('id')` for the arXiv and Semantic Scholar loops and
`paper.get('doi')` for the Crossref loop; a falsy key (`None` or the
empty string) skips the record, a key already in the shared `seen_ids`
set skips the record, otherwise the record and its key are appended. -/
def dedupStep (key : Paper → Option String) (acc : List Paper × List String) (p : Paper) : List Paper × List String :=
  match key p with
  | none => acc
  | some k =>
    if k = "" then acc
    else if acc.2.contains k then acc
    else (acc.1 ++ [p], acc.2 ++ [k])

/-- The accumulation phase of `search_papers`: for each connector in
order (arXiv, Crossref, Semantic Scholar), for each query in order, fold
the returned papers through `dedupStep`.  The per-query result lists are
given as `List (List Paper)` (one inner list per query, in query order);
the loops traverse their concatenation. -/
def aggregateDedup (ar cr s2 : List (List Paper)) : List Paper × List String :=
  let a1 := ar.flatten.foldl (dedupStep Paper.id) (([], []) : List Paper × List String)
  let a2 := cr.flatten.foldl (dedupStep Paper.doi) a1
  s2.flatten.foldl (dedupStep Paper.id) a2

/-- `search_papers` (run.py): accumulate and dedup, then
`all_papers.sort(key=lambda x: x.get('date', ''), reverse=True)`. -/
def search_papers (ar cr s2 : List (List Paper)) : List Paper :=
  sortDescBy strLeB dateKey (aggregateDedup ar cr s2).1

-- C5 ---------------------------------------------------------------------

/-- Claim C5: after all connector-query combinations are accumulated,
the aggregator stable-sorts the sequence by the raw `date` string in
descending lexicographic order: the output is a permutation of the
accumulated list, pairwise descending under the Python string order,
records with equal date strings keep their pre-sort relative order
(filtering by any fixed date string is unchanged by the sort), and every
record with an empty date string comes after every record with a
non-empty one. -/
theorem c5_sort_stable_desc (ar cr s2 : List (List Paper)) :
    List.Perm (search_papers ar cr s2) (aggregateDedup ar cr s2).1 ∧
    List.Pairwise (fun a b => strLeB (dateKey b) (dateKey a) = true) (search_papers ar cr s2) ∧
    (∀ d : String, (search_papers ar cr s2).filter (fun p => decide (dateKey p = d))
        = (aggregateDedup ar cr s2).1.filter (fun p => decide (dateKey p = d))) ∧
    List.Pairwise (fun a b => dateKey a = "" → dateKey b = "") (search_papers ar cr s2) := by
  obtain ⟨P1, P2, P3⟩ := sortDescBy_spec strLeB dateKey strLeB_total strLeB_trans (aggregateDedup ar cr s2).1
  refine ⟨P2, P1, P3, ?_⟩
  refine P1.imp ?_
  intro a b hab ha
  rw [ha] at hab
  exact strLeB_empty_right _ hab

/-- Witness for C5 at a concrete three-paper aggregate (one paper with
an empty date). -/
theorem c5_witness :
    List.Perm
      (search_papers [[{ id := some "a", doi := none, title := "A", date := some "2024-01-02", score := none, summary := none },
                       { id := some "b", doi := none, title := "B", date := some "2024-01-05", score := none, summary := none },
                       { id := some "c", doi := none, title := "C", date := some "", score := none, summary := none }]] [] [])
      (aggregateDedup [[{ id := some "a", doi := none, title := "A", date := some "2024-01-02", score := none, summary := none },
                        { id := some "b", doi := none, title := "B", date := some "2024-01-05", score := none, summary := none },
                        { id := some "c", doi := none, title := "C", date := some "", score := none, summary := none }]] [] []).1 ∧
    (search_papers [[{ id := some "a", doi := none, title := "A", date := some "2024-01-02", score := none, summary := none },
                     { id := some "b", doi := none, title := "B", date := some "2024-01-05", score := none, summary := none },
                     { id := some "c", doi := none, title := "C", date := some "", score := none, summary := none }]] [] []).filter
        (fun p => decide (dateKey p = "2024-01-05"))
      = (aggregateDedup [[{ id := some "a", doi := none, title := "A", date := some "2024-01-02", score := none, summary := none },
                          { id := some "b", doi := none, title := "B", date := some "2024-01-05", score := none, summary := none },
                          { id := some "c", doi := none, title := "C", date := some "", score := none, summary := none }]] [] []).1.filter
        (fun p => decide (dateKey p = "2024-01-05")) :=
  ⟨(c5_sort_stable_desc _ _ _).1, (c5_sort_stable_desc _ _ _).2.2.1 "2024-01-05"⟩

-- C4 ---------------------------------------------------------------------

/-- Invariant of the dedup fold for a fixed non-empty key `k`: the
accumulated output contains exactly one record with id `k` when `k` has
been admitted to the shared seen set, and none otherwise. -/
def dedupInv (k : String) (acc : List Paper × List String) : Prop :=
  acc.1.countP (fun p => decide (p.id = some k)) = (if k ∈ acc.2 then 1 else 0)

theorem dedupStep_inv (kf : Paper → Option String) (k : String) (p : Paper)
    (hkf : kf p = p.id) (acc : List Paper × List String) (h : dedupInv k acc) :
    dedupInv k (dedupStep kf acc p) := by
  cases hkp : kf p with
  | none => simpa [dedupStep, hkp] using h
  | some k2 =>
    simp only [dedupStep, hkp]
    by_cases h1 : k2 = ""
    · rw [if_pos h1]
      exact h
    · rw [if_neg h1]
      by_cases h2 : acc.2.contains k2 = true
      · rw [if_pos h2]
        exact h
      · rw [if_neg h2]
        have hpid : p.id = some k2 := hkf.symm.trans hkp
        have hnotmem : k2 ∉ acc.2 := contains_eq_false_iff acc.2 k2 |>.mp (Bool.eq_false_iff.mpr h2)
        by_cases hkk : k2 = k
        · subst hkk
          rw [dedupInv] at h ⊢
          rw [if_neg hnotmem] at h
          rw [List.countP_append, h]
          have : k2 ∈ acc.2 ++ [k2] := List.mem_append_right _ (List.mem_singleton_self k2)
          rw [if_pos this]
          simp [List.countP_cons, hpid]
        · rw [dedupInv] at h ⊢
          rw [List.countP_append]
          have hcnt : List.countP (fun p => decide (p.id = some k)) [p] = 0 := by
            simp [List.countP_cons, hpid, hkk]
          rw [hcnt]
          have hmm : (k ∈ acc.2 ++ [k2]) ↔ k ∈ acc.2 := by
            rw [List.mem_append]
            constructor
            · rintro (hm | hm)
              · exact hm
              · exact absurd (List.mem_singleton.mp hm) (fun he => hkk (he.symm))
            · exact Or.inl
          by_cases hmem : k ∈ acc.2
          · rw [if_pos (hmm.mpr hmem)]
            rw [if_pos hmem] at h
            omega
          · rw [if_neg (fun hx => hmem (hmm.mp hx))]
            rw [if_neg hmem] at h
            omega

theorem foldl_dedup_inv (kf : Paper → Option String) (k : String) :
    ∀ (stream : List Paper), (∀ p ∈ stream, kf p = p.id) →
      ∀ acc, dedupInv k acc → dedupInv k (stream.foldl (dedupStep kf) acc) := by
  intro stream
  induction stream with
  | nil => intro _ acc h; exact h
  | cons x xs ih =>
    intro hkf acc h
    simp only [List.foldl_cons]
    exact ih (fun p hp => hkf p (List.mem_cons_of_mem x hp)) _
      (dedupStep_inv kf k x (hkf x (List.mem_cons_self x xs)) acc h)

theorem dedupStep_seen_subset (kf : Paper → Option String) (acc : List Paper × List String) (p : Paper) :
    acc.2 ⊆ (dedupStep kf acc p).2 := by
  cases hkp : kf p with
  | none => simp [dedupStep, hkp]
  | some k2 =>
    simp only [dedupStep, hkp]
    by_cases h1 : k2 = ""
    · rw [if_pos h1]
      exact fun x hx => hx
    · rw [if_neg h1]
      by_cases h2 : acc.2.contains k2 = true
      · rw [if_pos h2]
        exact fun x hx => hx
      · rw [if_neg h2]
        exact List.subset_append_left acc.2 [k2]

theorem foldl_dedup_seen_subset (kf : Paper → Option String) :
    ∀ (stream : List Paper) (acc : List Paper × List String),
      acc.2 ⊆ (stream.foldl (dedupStep kf) acc).2 := by
  intro stream
  induction stream with
  | nil => intro acc; exact fun x hx => hx
  | cons x xs ih =>
    intro acc
    simp only [List.foldl_cons]
    exact fun y hy => ih (dedupStep kf acc x) (dedupStep_seen_subset kf acc x hy)

theorem foldl_dedup_seen_added (kf : Paper → Option String) (k : String) (hk : k ≠ "") :
    ∀ (stream : List Paper) (acc : List Paper × List String) (p : Paper),
      p ∈ stream → kf p = some k → k ∈ (stream.foldl (dedupStep kf) acc).2 := by
  intro stream
  induction stream with
  | nil => intro acc p hp; cases hp
  | cons x xs ih =>
    intro acc p hp hpk
    simp only [List.foldl_cons]
    rcases List.mem_cons.mp hp with rfl | hpxs
    · refine foldl_dedup_seen_subset kf xs (dedupStep kf acc p) ?_
      simp only [dedupStep, hpk]
      rw [if_neg hk]
      by_cases h2 : acc.2.contains k = true
      · rw [if_pos h2]
        exact List.mem_of_elem_eq_true h2
      · rw [if_neg h2]
        exact List.mem_append_right _ (List.mem_singleton_self k)
    · exact ih _ p hpxs hpk

theorem find?_append_some {α : Type} (p : α → Bool) (l1 l2 : List α) (a : α) (h : l1.find? p = some a) :
    (l1 ++ l2).find? p = some a := by
  induction l1 with
  | nil => cases h
  | cons x xs ih =>
    by_cases hx : p x = true
    · rw [List.find?_cons_of_pos _ hx] at h
      rw [List.cons_append, List.find?_cons_of_pos _ hx]
      exact h
    · rw [List.find?_cons_of_neg _ hx] at h
      rw [List.cons_append, List.find?_cons_of_neg _ hx]
      exact ih h

theorem find?_append_none {α : Type} (p : α → Bool) (l1 l2 : List α) (h : l1.find? p = none) :
    (l1 ++ l2).find? p = l2.find? p := by
  induction l1 with
  | nil => rfl
  | cons x xs ih =>
    by_cases hx : p x = true
    · rw [List.find?_cons_of_pos _ hx] at h
      cases h
    · rw [List.find?_cons_of_neg _ hx] at h
      rw [List.cons_append, List.find?_cons_of_neg _ hx]
      exact ih h

/-- Once a key is in the shared seen set, no later record carrying that
key is ever appended: every such record of the fold result was already
in the accumulator. -/
theorem foldl_dedup_no_new_key (kf : Paper → Option String) (k : String) :
    ∀ (stream : List Paper), (∀ p ∈ stream, kf p = p.id) →
      ∀ acc : List Paper × List String, k ∈ acc.2 →
        ∀ p ∈ (stream.foldl (dedupStep kf) acc).1, p.id = some k → p ∈ acc.1 := by
  intro stream
  induction stream with
  | nil => intro _ acc _ p hp _; exact hp
  | cons x xs ih =>
    intro hkf acc hseen p hp hpk
    simp only [List.foldl_cons] at hp
    have hseen2 : k ∈ (dedupStep kf acc x).2 := dedupStep_seen_subset kf acc x hseen
    have hp2 := ih (fun q hq => hkf q (List.mem_cons_of_mem x hq)) _ hseen2 p hp hpk
    cases hkp : kf x with
    | none => simpa [dedupStep, hkp] using hp2
    | some kx =>
      simp only [dedupStep, hkp] at hp2
      by_cases h1 : kx = ""
      · rw [if_pos h1] at hp2
        exact hp2
      · rw [if_neg h1] at hp2
        by_cases h2 : acc.2.contains kx = true
        · rw [if_pos h2] at hp2
          exact hp2
        · rw [if_neg h2] at hp2
          rcases List.mem_append.mp hp2 with h | h
          · exact h
          · exfalso
            have hx : p = x := List.mem_singleton.mp h
            have hkxk : kx = k := by
              have h3 : kf x = some k := by
                rw [hkf x (List.mem_cons_self x xs), ← hx, hpk]
              rw [hkp] at h3
              exact Option.some.inj h3
            subst hkxk
            exact (contains_eq_false_iff acc.2 kx).mp (Bool.eq_false_iff.mpr h2) hseen

/-- When a key is not yet seen and the accumulated output contains no
record with it, every record with that key in the fold result is the
FIRST record of the stream whose key resolves to it. -/
theorem foldl_dedup_first_encounter (kf : Paper → Option String) (k : String) (hk : k ≠ "") :
    ∀ (stream : List Paper), (∀ p ∈ stream, kf p = p.id) →
      ∀ acc : List Paper × List String, k ∉ acc.2 →
        acc.1.countP (fun q => decide (q.id = some k)) = 0 →
        ∀ p ∈ (stream.foldl (dedupStep kf) acc).1, p.id = some k →
          stream.find? (fun q => decide (q.id = some k)) = some p := by
  intro stream
  induction stream with
  | nil =>
    intro _ acc _ hcnt p hp hpk
    exact absurd (by simp [hpk]) (List.countP_eq_zero.mp hcnt p hp)
  | cons x xs ih =>
    intro hkf acc hseen hcnt p hp hpk
    simp only [List.foldl_cons] at hp
    by_cases hx : x.id = some k
    · rw [List.find?_cons_of_pos _ (by simp [hx])]
      have hkfx : kf x = some k := (hkf x (List.mem_cons_self x xs)).trans hx
      have hstep : dedupStep kf acc x = (acc.1 ++ [x], acc.2 ++ [k]) := by
        simp only [dedupStep, hkfx]
        rw [if_neg hk, if_neg (fun hc => hseen (List.mem_of_elem_eq_true hc))]
      have hseen2 : k ∈ (dedupStep kf acc x).2 := by
        rw [hstep]
        exact List.mem_append_right _ (List.mem_singleton_self k)
      have hp2 := foldl_dedup_no_new_key kf k xs (fun q hq => hkf q (List.mem_cons_of_mem x hq)) _ hseen2 p hp hpk
      rw [hstep] at hp2
      rcases List.mem_append.mp hp2 with h | h
      · exact absurd (by simp [hpk]) (List.countP_eq_zero.mp hcnt p h)
      · rw [List.mem_singleton.mp h]
    · rw [List.find?_cons_of_neg _ (by simp [hx])]
      have hkfx : kf x = x.id := hkf x (List.mem_cons_self x xs)
      cases hkp : kf x with
      | none =>
        have hstep : dedupStep kf acc x = acc := by simp [dedupStep, hkp]
        rw [hstep] at hp
        exact ih (fun q hq => hkf q (List.mem_cons_of_mem x hq)) acc hseen hcnt p hp hpk
      | some kx =>
        have hkxne : kx ≠ k := fun he => hx (by rw [← hkfx, hkp, he])
        by_cases h1 : kx = ""
        · have hstep : dedupStep kf acc x = acc := by simp [dedupStep, hkp, h1]
          rw [hstep] at hp
          exact ih (fun q hq => hkf q (List.mem_cons_of_mem x hq)) acc hseen hcnt p hp hpk
        · by_cases h2 : acc.2.contains kx = true
          · have hstep : dedupStep kf acc x = acc := by
              simp only [dedupStep, hkp]
              rw [if_neg h1, if_pos h2]
            rw [hstep] at hp
            exact ih (fun q hq => hkf q (List.mem_cons_of_mem x hq)) acc hseen hcnt p hp hpk
          · have hstep : dedupStep kf acc x = (acc.1 ++ [x], acc.2 ++ [kx]) := by
              simp only [dedupStep, hkp]
              rw [if_neg h1, if_neg h2]
            rw [hstep] at hp
            have hseen2 : k ∉ acc.2 ++ [kx] := by
              intro hm
              rcases List.mem_append.mp hm with hm | hm
              · exact hseen hm
              · exact hkxne (List.mem_singleton.mp hm).symm
            have hcnt2 : (acc.1 ++ [x]).countP (fun q => decide (q.id = some k)) = 0 := by
              rw [List.countP_append, hcnt]
              simp [List.countP_cons, hx]
            exact ih (fun q hq => hkf q (List.mem_cons_of_mem x hq)) (acc.1 ++ [x], acc.2 ++ [kx]) hseen2 hcnt2 p hp hpk

/-- Claim C4: when two records of the same source carry the same
non-empty identity key (`id` for arXiv and Semantic Scholar, `doi` for
Crossref; Crossref records carry their DOI in both fields, as
`_extract_paper_info` emits `id = doi`), the aggregator's output
contains exactly one record with that key, and that record is the
FIRST one encountered in connector-then-query order (the first record
carrying the key in the arXiv-then-Crossref-then-Semantic-Scholar
concatenation of per-query results). -/
theorem c4_dedup_unique (ar cr s2 : List (List Paper)) (k : String) (hk : k ≠ "")
    (hcr : ∀ p ∈ cr.flatten, p.id = p.doi)
    (hdup : 2 ≤ ar.flatten.countP (fun p => decide (p.id = some k)) ∨
            2 ≤ cr.flatten.countP (fun p => decide (p.doi = some k)) ∨
            2 ≤ s2.flatten.countP (fun p => decide (p.id = some k))) :
    (search_papers ar cr s2).countP (fun p => decide (p.id = some k)) = 1 ∧
    (∀ p ∈ search_papers ar cr s2, p.id = some k →
      (ar.flatten ++ (cr.flatten ++ s2.flatten)).find? (fun q => decide (q.id = some k)) = some p) := by
  have hperm := (sortDescBy_spec strLeB dateKey strLeB_total strLeB_trans (aggregateDedup ar cr s2).1).2.1
  rw [show search_papers ar cr s2 = sortDescBy strLeB dateKey (aggregateDedup ar cr s2).1 from rfl]
  rw [hperm.countP_eq]
  have hstep1 : dedupInv k (ar.flatten.foldl (dedupStep Paper.id) (([], []) : List Paper × List String)) :=
    foldl_dedup_inv Paper.id k ar.flatten (fun p _ => rfl) ([], []) (by simp [dedupInv])
  have hstep2 : dedupInv k (cr.flatten.foldl (dedupStep Paper.doi)
      (ar.flatten.foldl (dedupStep Paper.id) (([], []) : List Paper × List String))) :=
    foldl_dedup_inv Paper.doi k cr.flatten (fun p hp => (hcr p hp).symm) _ hstep1
  have hinv : dedupInv k (aggregateDedup ar cr s2) :=
    foldl_dedup_inv Paper.id k s2.flatten (fun p _ => rfl) _ hstep2
  have hseen : k ∈ (aggregateDedup ar cr s2).2 := by
    rcases hdup with hd | hd | hd
    · have hpos : 0 < ar.flatten.countP (fun p => decide (p.id = some k)) := by omega
      obtain ⟨p, hp, hpk⟩ := List.countP_pos_iff.mp hpos
      have hpid : p.id = some k := by simpa using hpk
      refine foldl_dedup_seen_subset Paper.id s2.flatten _ ?_
      refine foldl_dedup_seen_subset Paper.doi cr.flatten _ ?_
      exact foldl_dedup_seen_added Paper.id k hk ar.flatten ([], []) p hp hpid
    · have hpos : 0 < cr.flatten.countP (fun p => decide (p.doi = some k)) := by omega
      obtain ⟨p, hp, hpk⟩ := List.countP_pos_iff.mp hpos
      have hpdoi : p.doi = some k := by simpa using hpk
      refine foldl_dedup_seen_subset Paper.id s2.flatten _ ?_
      exact foldl_dedup_seen_added Paper.doi k hk cr.flatten _ p hp hpdoi
    · have hpos : 0 < s2.flatten.countP (fun p => decide (p.id = some k)) := by omega
      obtain ⟨p, hp, hpk⟩ := List.countP_pos_iff.mp hpos
      have hpid : p.id = some k := by simpa using hpk
      exact foldl_dedup_seen_added Paper.id k hk s2.flatten _ p hp hpid
  rw [dedupInv] at hinv
  rw [if_pos hseen] at hinv
  constructor
  · exact hinv
  · intro p hp hpk
    have hp3 : p ∈ (aggregateDedup ar cr s2).1 := hperm.mem_iff.mp hp
    have hp3x : p ∈ (s2.flatten.foldl (dedupStep Paper.id)
        (cr.flatten.foldl (dedupStep Paper.doi)
          (ar.flatten.foldl (dedupStep Paper.id) (([], []) : List Paper × List String)))).1 := hp3
    by_cases hp2 : p ∈ (cr.flatten.foldl (dedupStep Paper.doi)
        (ar.flatten.foldl (dedupStep Paper.id) (([], []) : List Paper × List String))).1
    · by_cases hp1 : p ∈ (ar.flatten.foldl (dedupStep Paper.id) (([], []) : List Paper × List String)).1
      · have har := foldl_dedup_first_encounter Paper.id k hk ar.flatten (fun q _ => rfl)
          ([], []) (by simp) (by simp) p hp1 hpk
        exact find?_append_some _ _ _ p har
      · have hk1 : k ∉ (ar.flatten.foldl (dedupStep Paper.id) (([], []) : List Paper × List String)).2 := by
          intro hm
          exact hp1 (foldl_dedup_no_new_key Paper.doi k cr.flatten (fun q hq => (hcr q hq).symm) _ hm p hp2 hpk)
        have hc1 : (ar.flatten.foldl (dedupStep Paper.id) (([], []) : List Paper × List String)).1.countP
            (fun q => decide (q.id = some k)) = 0 := by
          have h0 := hstep1
          rw [dedupInv] at h0
          rw [if_neg hk1] at h0
          exact h0
        have hcrfind := foldl_dedup_first_encounter Paper.doi k hk cr.flatten
          (fun q hq => (hcr q hq).symm) _ hk1 hc1 p hp2 hpk
        have harnone : ar.flatten.find? (fun q => decide (q.id = some k)) = none := by
          rw [List.find?_eq_none]
          intro x hx hpx
          have hxid : x.id = some k := by simpa using hpx
          exact hk1 (foldl_dedup_seen_added Paper.id k hk ar.flatten ([], []) x hx hxid)
        rw [find?_append_none _ _ _ harnone]
        exact find?_append_some _ _ _ p hcrfind
    · have hk2 : k ∉ (cr.flatten.foldl (dedupStep Paper.doi)
          (ar.flatten.foldl (dedupStep Paper.id) (([], []) : List Paper × List String))).2 := by
        intro hm
        exact hp2 (foldl_dedup_no_new_key Paper.id k s2.flatten (fun q _ => rfl) _ hm p hp3x hpk)
      have hc2 : (cr.flatten.foldl (dedupStep Paper.doi)
          (ar.flatten.foldl (dedupStep Paper.id) (([], []) : List Paper × List String))).1.countP
            (fun q => decide (q.id = some k)) = 0 := by
        have h0 := hstep2
        rw [dedupInv] at h0
        rw [if_neg hk2] at h0
        exact h0
      have hs2find := foldl_dedup_first_encounter Paper.id k hk s2.flatten (fun q _ => rfl)
        _ hk2 hc2 p hp3x hpk
      have harnone : ar.flatten.find? (fun q => decide (q.id = some k)) = none := by
        rw [List.find?_eq_none]
        intro x hx hpx
        have hxid : x.id = some k := by simpa using hpx
        have hm := foldl_dedup_seen_added Paper.id k hk ar.flatten ([], []) x hx hxid
        exact hk2 (foldl_dedup_seen_subset Paper.doi cr.flatten _ hm)
      have hcrnone : cr.flatten.find? (fun q => decide (q.id = some k)) = none := by
        rw [List.find?_eq_none]
        intro x hx hpx
        have hxid : x.id = some k := by simpa using hpx
        have hxdoi : Paper.doi x = some k := by
          rw [← hcr x hx]
          exact hxid
        exact hk2 (foldl_dedup_seen_added Paper.doi k hk cr.flatten _ x hx hxdoi)
      rw [find?_append_none _ _ _ harnone, find?_append_none _ _ _ hcrnone]
      exact hs2find

/-- Witness for C4: the same arXiv id returned by two overlapping
queries (the two records differing in title and date) yields exactly
one aggregated record, and the survivor is the first-encountered one
even though the second record carries the later date. -/
theorem c4_witness :
    ((search_papers [[{ id := some "2405.00001", doi := none, title := "First", date := some "2024-05-01", score := none, summary := none }],
                     [{ id := some "2405.00001", doi := none, title := "Second", date := some "2024-05-02", score := none, summary := none }]] [] []).countP
      (fun p => decide (p.id = some "2405.00001")) = 1) ∧
    (([[{ id := some "2405.00001", doi := none, title := "First", date := some "2024-05-01", score := none, summary := none }],
       [{ id := some "2405.00001", doi := none, title := "Second", date := some "2024-05-02", score := none, summary := none }]] : List (List Paper)).flatten ++
      (List.flatten ([] : List (List Paper)) ++ List.flatten ([] : List (List Paper)))).find?
        (fun q => decide (q.id = some "2405.00001"))
      = some { id := some "2405.00001", doi := none, title := "First", date := some "2024-05-01", score := none, summary := none } := by
  have h := c4_dedup_unique
    [[{ id := some "2405.00001", doi := none, title := "First", date := some "2024-05-01", score := none, summary := none }],
     [{ id := some "2405.00001", doi := none, title := "Second", date := some "2024-05-02", score := none, summary := none }]] [] []
    "2405.00001" (by decide) (by intro p hp; cases hp) (Or.inl (by decide))
  exact ⟨h.1, h.2 { id := some "2405.00001", doi := none, title := "First", date := some "2024-05-01", score := none, summary := none }
    (by decide) (by decide)⟩

-- Relevance tiering (run.py, lines 165-221).  Scores are run.py floats,
-- embedded as rationals; the LLM judge `relevance_filter.score_paper` is
-- an external call, embedded as the given `scoreOf` function.

/-- Python `a <= b` on scores. -/
def ratLeB (a b : ℚ) : Bool := decide (a ≤ b)

/-- `p.get('relevance_score', 0)`. -/
def scoreKey (p : Paper) : ℚ := p.score.getD 0

/-- `paper['relevance_score'] = score` (the reason string only feeds the
omitted presentation fields). -/
def setScore (scoreOf : Paper → ℚ) (p : Paper) : Paper := { p with score := some (scoreOf p) }

/-- `scored_papers`: every unseen paper is scored and appended when
`score >= also_relevant_threshold`, then the list is sorted by score,
highest first (stable `list.sort(..., reverse=True)`). -/
def scoredOf (scoreOf : Paper → ℚ) (alsoT : ℚ) (unseen : List Paper) : List Paper :=
  (unseen.map (setScore scoreOf)).filter (fun p => ratLeB alsoT (scoreKey p))

def sortedOf (scoreOf : Paper → ℚ) (alsoT : ℚ) (unseen : List Paper) : List Paper :=
  sortDescBy ratLeB scoreKey (scoredOf scoreOf alsoT unseen)

/-- `highly_relevant`: score at least `highly_relevant_threshold`. -/
def highlyOf (scoreOf : Paper → ℚ) (alsoT highT : ℚ) (unseen : List Paper) : List Paper :=
  (sortedOf scoreOf alsoT unseen).filter (fun p => ratLeB highT (scoreKey p))

/-- `also_relevant`: `also_relevant_threshold <= score < highly_relevant_threshold`. -/
def alsoOf (scoreOf : Paper → ℚ) (alsoT highT : ℚ) (unseen : List Paper) : List Paper :=
  (sortedOf scoreOf alsoT unseen).filter (fun p => ratLeB alsoT (scoreKey p) && !(ratLeB highT (scoreKey p)))

/-- `papers_to_process`: all highly relevant papers, topped up with
`also_relevant[:needed]` when below `min_total_papers` and
`also_relevant` is non-empty. -/
def scoreStage (scoreOf : Paper → ℚ) (alsoT highT : ℚ) (minTotal : ℕ) (unseen : List Paper) : List Paper :=
  if (highlyOf scoreOf alsoT highT unseen).length < minTotal ∧ alsoOf scoreOf alsoT highT unseen ≠ [] then
    highlyOf scoreOf alsoT highT unseen ++
      (alsoOf scoreOf alsoT highT unseen).take (minTotal - (highlyOf scoreOf alsoT highT unseen).length)
  else
    highlyOf scoreOf alsoT highT unseen

theorem ratLeB_total (a b : ℚ) : ratLeB a b = true ∨ ratLeB b a = true := by
  rcases le_total a b with h | h
  · exact Or.inl (decide_eq_true h)
  · exact Or.inr (decide_eq_true h)

theorem ratLeB_trans (a b c : ℚ) (h1 : ratLeB a b = true) (h2 : ratLeB b c = true) : ratLeB a c = true :=
  decide_eq_true (le_trans (of_decide_eq_true h1) (of_decide_eq_true h2))

theorem countP_not_add {α : Type} (p : α → Bool) (l : List α) :
    l.countP p + l.countP (fun a => !(p a)) = l.length := by
  induction l with
  | nil => rfl
  | cons x xs ih =>
    by_cases h : p x = true <;> simp [List.countP_cons, h] <;> omega

theorem mem_sortedOf_iff (scoreOf : Paper → ℚ) (alsoT : ℚ) (unseen : List Paper) (q : Paper) :
    q ∈ sortedOf scoreOf alsoT unseen ↔ q ∈ scoredOf scoreOf alsoT unseen :=
  ((sortDescBy_spec ratLeB scoreKey ratLeB_total ratLeB_trans (scoredOf scoreOf alsoT unseen)).2.1).mem_iff

theorem length_highlyOf (scoreOf : Paper → ℚ) (alsoT highT : ℚ) (unseen : List Paper) (hth : alsoT ≤ highT) :
    (highlyOf scoreOf alsoT highT unseen).length = unseen.countP (fun p => decide (highT ≤ scoreOf p)) := by
  have hperm := (sortDescBy_spec ratLeB scoreKey ratLeB_total ratLeB_trans (scoredOf scoreOf alsoT unseen)).2.1
  calc (highlyOf scoreOf alsoT highT unseen).length
      = (sortedOf scoreOf alsoT unseen).countP (fun p => ratLeB highT (scoreKey p)) :=
        (List.countP_eq_length_filter _ _).symm
    _ = (scoredOf scoreOf alsoT unseen).countP (fun p => ratLeB highT (scoreKey p)) :=
        hperm.countP_eq _
    _ = (unseen.map (setScore scoreOf)).countP
          (fun p => ratLeB highT (scoreKey p) && ratLeB alsoT (scoreKey p)) :=
        List.countP_filter _ _ _
    _ = unseen.countP
          ((fun p => ratLeB highT (scoreKey p) && ratLeB alsoT (scoreKey p)) ∘ setScore scoreOf) :=
        List.countP_map _ _ _
    _ = unseen.countP (fun p => decide (highT ≤ scoreOf p)) := by
        apply List.countP_congr
        intro x _
        simp only [Function.comp, ratLeB, setScore, scoreKey, Option.getD_some,
          Bool.and_eq_true, decide_eq_true_eq]
        constructor
        · exact fun h => h.1
        · exact fun h => ⟨h, le_trans hth h⟩

theorem length_sortedOf (scoreOf : Paper → ℚ) (alsoT : ℚ) (unseen : List Paper) :
    (sortedOf scoreOf alsoT unseen).length = unseen.countP (fun p => decide (alsoT ≤ scoreOf p)) := by
  have hperm := (sortDescBy_spec ratLeB scoreKey ratLeB_total ratLeB_trans (scoredOf scoreOf alsoT unseen)).2.1
  calc (sortedOf scoreOf alsoT unseen).length
      = (scoredOf scoreOf alsoT unseen).length := hperm.length_eq
    _ = (unseen.map (setScore scoreOf)).countP (fun p => ratLeB alsoT (scoreKey p)) :=
        (List.countP_eq_length_filter _ _).symm
    _ = unseen.countP ((fun p => ratLeB alsoT (scoreKey p)) ∘ setScore scoreOf) :=
        List.countP_map _ _ _
    _ = unseen.countP (fun p => decide (alsoT ≤ scoreOf p)) := by
        apply List.countP_congr
        intro x _
        simp [Function.comp, ratLeB, setScore, scoreKey]

theorem length_highly_add_also (scoreOf : Paper → ℚ) (alsoT highT : ℚ) (unseen : List Paper) :
    (highlyOf scoreOf alsoT highT unseen).length + (alsoOf scoreOf alsoT highT unseen).length
      = (sortedOf scoreOf alsoT unseen).length := by
  have hall : ∀ x ∈ sortedOf scoreOf alsoT unseen, ratLeB alsoT (scoreKey x) = true := by
    intro x hx
    have hmem := (mem_sortedOf_iff scoreOf alsoT unseen x).mp hx
    simp only [scoredOf] at hmem
    have hf := List.of_mem_filter hmem
    exact hf
  have h1 : (highlyOf scoreOf alsoT highT unseen).length
      = (sortedOf scoreOf alsoT unseen).countP (fun p => ratLeB highT (scoreKey p)) :=
    (List.countP_eq_length_filter _ _).symm
  have h2 : (alsoOf scoreOf alsoT highT unseen).length
      = (sortedOf scoreOf alsoT unseen).countP (fun p => ratLeB alsoT (scoreKey p) && !(ratLeB highT (scoreKey p))) :=
    (List.countP_eq_length_filter _ _).symm
  have h3 : (sortedOf scoreOf alsoT unseen).countP (fun p => ratLeB alsoT (scoreKey p) && !(ratLeB highT (scoreKey p)))
      = (sortedOf scoreOf alsoT unseen).countP (fun p => !(ratLeB highT (scoreKey p))) := by
    apply List.countP_congr
    intro x hx
    simp [hall x hx]
  rw [h1, h2, h3, countP_not_add]


/-- The two branches of the selection collapse into one shape: the
highly-relevant papers followed by a PREFIX of the descending-sorted
also-relevant list (`also_relevant[:needed]`; the prefix is empty when
the minimum is already met, and truncated when also-relevant runs out). -/
theorem scoreStage_eq (scoreOf : Paper → ℚ) (alsoT highT : ℚ) (minTotal : ℕ) (unseen : List Paper) :
    scoreStage scoreOf alsoT highT minTotal unseen
      = highlyOf scoreOf alsoT highT unseen ++
          (alsoOf scoreOf alsoT highT unseen).take (minTotal - (highlyOf scoreOf alsoT highT unseen).length) := by
  simp only [scoreStage]
  by_cases hc : (highlyOf scoreOf alsoT highT unseen).length < minTotal ∧ alsoOf scoreOf alsoT highT unseen ≠ []
  · rw [if_pos hc]
  · rw [if_neg hc]
    by_cases hlt : (highlyOf scoreOf alsoT highT unseen).length < minTotal
    · have hae : alsoOf scoreOf alsoT highT unseen = [] := by
        by_contra hne
        exact hc ⟨hlt, hne⟩
      rw [hae, List.take_nil, List.append_nil]
    · rw [Nat.sub_eq_zero_of_le (Nat.le_of_not_lt hlt), List.take_zero, List.append_nil]

theorem pairwise_sortedOf (scoreOf : Paper → ℚ) (alsoT : ℚ) (unseen : List Paper) :
    List.Pairwise (fun a b => scoreKey b ≤ scoreKey a) (sortedOf scoreOf alsoT unseen) :=
  ((sortDescBy_spec ratLeB scoreKey ratLeB_total ratLeB_trans (scoredOf scoreOf alsoT unseen)).1).imp
    (fun h => of_decide_eq_true h)

theorem mem_sortedOf_of_unseen (scoreOf : Paper → ℚ) (alsoT : ℚ) (unseen : List Paper) (r : Paper)
    (hr : r ∈ unseen) (hrT : alsoT ≤ scoreOf r) :
    setScore scoreOf r ∈ sortedOf scoreOf alsoT unseen := by
  have hmemS : setScore scoreOf r ∈ unseen.map (setScore scoreOf) :=
    List.mem_map_of_mem _ hr
  have hf1 : ratLeB alsoT (scoreKey (setScore scoreOf r)) = true := by
    simp only [ratLeB, setScore, scoreKey, Option.getD_some, decide_eq_true_eq]
    exact hrT
  exact (mem_sortedOf_iff scoreOf alsoT unseen _).mpr (List.mem_filter.mpr ⟨hmemS, hf1⟩)

/-- Claim C3: the tier selection includes every paper scored at least
`highly_relevant_threshold`; only papers scored at least
`also_relevant_threshold` are ever selected; the selected count is the
highly-relevant count when that meets `min_total_papers`, and otherwise
tops up from also-relevant until `min_total_papers` is reached or
also-relevant is exhausted; the top-up is in DESCENDING SCORE ORDER:
the selection itself is pairwise descending by score, and every
eligible paper left unselected scores no higher than any selected
paper (so the highest-scored also-relevant papers are the ones taken);
and three concrete scenarios: scores 9, 8, 4, 3 with thresholds 7/5
and minimum 3 select exactly the papers scored 9 and 8; scores
9, 8, 6, 4 select exactly the papers scored 9, 8 and 6; and scores
9, 5, 6, 4 with minimum 2 (the 5 listed BEFORE the 6) select the
papers scored 9 and 6 - the top also-relevant score, not the first or
lowest one. -/
theorem c3_tier_selection (scoreOf : Paper → ℚ) (alsoT highT : ℚ) (minTotal : ℕ) (unseen : List Paper)
    (hth : alsoT ≤ highT) :
    ((∀ p ∈ unseen, highT ≤ scoreOf p → setScore scoreOf p ∈ scoreStage scoreOf alsoT highT minTotal unseen) ∧
     (∀ q ∈ scoreStage scoreOf alsoT highT minTotal unseen, alsoT ≤ scoreKey q) ∧
     ((scoreStage scoreOf alsoT highT minTotal unseen).length =
        if minTotal ≤ unseen.countP (fun p => decide (highT ≤ scoreOf p))
        then unseen.countP (fun p => decide (highT ≤ scoreOf p))
        else min minTotal (unseen.countP (fun p => decide (alsoT ≤ scoreOf p)))) ∧
     List.Pairwise (fun a b => scoreKey b ≤ scoreKey a) (scoreStage scoreOf alsoT highT minTotal unseen) ∧
     (∀ q ∈ scoreStage scoreOf alsoT highT minTotal unseen, ∀ r ∈ unseen, alsoT ≤ scoreOf r →
        setScore scoreOf r ∉ scoreStage scoreOf alsoT highT minTotal unseen → scoreOf r ≤ scoreKey q)) ∧
    (scoreStage (fun p => if p.id = some "e1" then 9 else if p.id = some "e2" then 8 else if p.id = some "e3" then 4 else 3) 5 7 3
        [{ id := some "e1", doi := none, title := "E1", date := none, score := none, summary := none },
         { id := some "e2", doi := none, title := "E2", date := none, score := none, summary := none },
         { id := some "e3", doi := none, title := "E3", date := none, score := none, summary := none },
         { id := some "e4", doi := none, title := "E4", date := none, score := none, summary := none }]
      = [{ id := some "e1", doi := none, title := "E1", date := none, score := some 9, summary := none },
         { id := some "e2", doi := none, title := "E2", date := none, score := some 8, summary := none }]) ∧
    (scoreStage (fun p => if p.id = some "e1" then 9 else if p.id = some "e2" then 8 else if p.id = some "e3" then 6 else 4) 5 7 3
        [{ id := some "e1", doi := none, title := "E1", date := none, score := none, summary := none },
         { id := some "e2", doi := none, title := "E2", date := none, score := none, summary := none },
         { id := some "e3", doi := none, title := "E3", date := none, score := none, summary := none },
         { id := some "e4", doi := none, title := "E4", date := none, score := none, summary := none }]
      = [{ id := some "e1", doi := none, title := "E1", date := none, score := some 9, summary := none },
         { id := some "e2", doi := none, title := "E2", date := none, score := some 8, summary := none },
         { id := some "e3", doi := none, title := "E3", date := none, score := some 6, summary := none }]) ∧
    (scoreStage (fun p => if p.id = some "e1" then 9 else if p.id = some "e2" then 6 else if p.id = some "e3" then 5 else 4) 5 7 2
        [{ id := some "e1", doi := none, title := "E1", date := none, score := none, summary := none },
         { id := some "e3", doi := none, title := "E3", date := none, score := none, summary := none },
         { id := some "e2", doi := none, title := "E2", date := none, score := none, summary := none },
         { id := some "e4", doi := none, title := "E4", date := none, score := none, summary := none }]
      = [{ id := some "e1", doi := none, title := "E1", date := none, score := some 9, summary := none },
         { id := some "e2", doi := none, title := "E2", date := none, score := some 6, summary := none }]) := by
  refine ⟨⟨?_, ?_, ?_, ?_, ?_⟩, by decide, by decide, by decide⟩
  · intro p hp hscorep
    have hmemSorted : setScore scoreOf p ∈ sortedOf scoreOf alsoT unseen :=
      mem_sortedOf_of_unseen scoreOf alsoT unseen p hp (le_trans hth hscorep)
    have hmemHighly : setScore scoreOf p ∈ highlyOf scoreOf alsoT highT unseen := by
      refine List.mem_filter.mpr ⟨hmemSorted, ?_⟩
      simp only [ratLeB, setScore, scoreKey, Option.getD_some, decide_eq_true_eq]
      exact hscorep
    rw [scoreStage_eq]
    exact List.mem_append_left _ hmemHighly
  · intro q hq
    simp only [scoreStage] at hq
    have hsorted : q ∈ sortedOf scoreOf alsoT unseen := by
      by_cases hc : (highlyOf scoreOf alsoT highT unseen).length < minTotal ∧ alsoOf scoreOf alsoT highT unseen ≠ []
      · rw [if_pos hc] at hq
        rcases List.mem_append.mp hq with h | h
        · exact List.mem_of_mem_filter h
        · exact List.mem_of_mem_filter (List.take_subset _ _ h)
      · rw [if_neg hc] at hq
        exact List.mem_of_mem_filter hq
    have hscored : q ∈ scoredOf scoreOf alsoT unseen :=
      (mem_sortedOf_iff scoreOf alsoT unseen q).mp hsorted
    simp only [scoredOf] at hscored
    have hf1 := List.of_mem_filter hscored
    simpa [ratLeB] using hf1
  · have h2 := length_highlyOf scoreOf alsoT highT unseen hth
    have h1 := length_sortedOf scoreOf alsoT unseen
    have hadd := length_highly_add_also scoreOf alsoT highT unseen
    simp only [scoreStage]
    by_cases hc : (highlyOf scoreOf alsoT highT unseen).length < minTotal ∧ alsoOf scoreOf alsoT highT unseen ≠ []
    · rw [if_pos hc]
      rw [List.length_append, List.length_take]
      rw [if_neg (by omega)]
      omega
    · rw [if_neg hc]
      by_cases hlt : (highlyOf scoreOf alsoT highT unseen).length < minTotal
      · have hae : alsoOf scoreOf alsoT highT unseen = [] := by
          by_contra hne
          exact hc ⟨hlt, hne⟩
        have hal : (alsoOf scoreOf alsoT highT unseen).length = 0 := by
          rw [hae]
          rfl
        rw [if_neg (by omega)]
        omega
      · rw [if_pos (by omega)]
        omega
  · rw [scoreStage_eq]
    have hps := pairwise_sortedOf scoreOf alsoT unseen
    have hph : List.Pairwise (fun a b => scoreKey b ≤ scoreKey a) (highlyOf scoreOf alsoT highT unseen) :=
      List.Pairwise.sublist (List.filter_sublist _) hps
    have hpa : List.Pairwise (fun a b => scoreKey b ≤ scoreKey a) (alsoOf scoreOf alsoT highT unseen) :=
      List.Pairwise.sublist (List.filter_sublist _) hps
    have hpt : List.Pairwise (fun a b => scoreKey b ≤ scoreKey a)
        ((alsoOf scoreOf alsoT highT unseen).take (minTotal - (highlyOf scoreOf alsoT highT unseen).length)) :=
      List.Pairwise.sublist (List.take_sublist _ _) hpa
    refine List.pairwise_append.mpr ⟨hph, hpt, ?_⟩
    intro a ha b hb
    have ha' := ha
    simp only [highlyOf] at ha'
    have ha2 := List.of_mem_filter ha'
    simp only [ratLeB, decide_eq_true_eq] at ha2
    have hb' : b ∈ alsoOf scoreOf alsoT highT unseen := List.take_subset _ _ hb
    simp only [alsoOf] at hb'
    have hb2 := List.of_mem_filter hb'
    simp only [ratLeB, Bool.and_eq_true, Bool.not_eq_true', decide_eq_true_eq,
      decide_eq_false_iff_not] at hb2
    exact le_trans (le_of_lt (lt_of_not_le hb2.2)) ha2
  · intro q hq r hr hrT hrnot
    have hzsorted : setScore scoreOf r ∈ sortedOf scoreOf alsoT unseen :=
      mem_sortedOf_of_unseen scoreOf alsoT unseen r hr hrT
    have hscoreR : scoreKey (setScore scoreOf r) = scoreOf r := by
      simp [setScore, scoreKey]
    rw [scoreStage_eq] at hq hrnot
    have hrnot_high : ¬ highT ≤ scoreOf r := by
      intro hge
      apply hrnot
      apply List.mem_append_left
      refine List.mem_filter.mpr ⟨hzsorted, ?_⟩
      simp only [ratLeB, hscoreR, decide_eq_true_eq]
      exact hge
    rcases List.mem_append.mp hq with hqh | hqt
    · have hqh' := hqh
      simp only [highlyOf] at hqh'
      have ha2 := List.of_mem_filter hqh'
      simp only [ratLeB, decide_eq_true_eq] at ha2
      exact le_trans (le_of_lt (lt_of_not_le hrnot_high)) ha2
    · have hzalso : setScore scoreOf r ∈ alsoOf scoreOf alsoT highT unseen := by
        refine List.mem_filter.mpr ⟨hzsorted, ?_⟩
        simp only [ratLeB, hscoreR, Bool.and_eq_true, Bool.not_eq_true', decide_eq_true_eq,
          decide_eq_false_iff_not]
        exact ⟨hrT, hrnot_high⟩
      have hznot_take : setScore scoreOf r ∉
          (alsoOf scoreOf alsoT highT unseen).take (minTotal - (highlyOf scoreOf alsoT highT unseen).length) :=
        fun hmem => hrnot (List.mem_append_right _ hmem)
      have hzdrop : setScore scoreOf r ∈
          (alsoOf scoreOf alsoT highT unseen).drop (minTotal - (highlyOf scoreOf alsoT highT unseen).length) := by
        have h0 := hzalso
        rw [← List.take_append_drop (minTotal - (highlyOf scoreOf alsoT highT unseen).length)
          (alsoOf scoreOf alsoT highT unseen)] at h0
        rcases List.mem_append.mp h0 with h | h
        · exact absurd h hznot_take
        · exact h
      have hpa : List.Pairwise (fun a b => scoreKey b ≤ scoreKey a) (alsoOf scoreOf alsoT highT unseen) :=
        List.Pairwise.sublist (List.filter_sublist _) (pairwise_sortedOf scoreOf alsoT unseen)
      have hsplit := List.pairwise_append.mp (show List.Pairwise (fun a b => scoreKey b ≤ scoreKey a)
          ((alsoOf scoreOf alsoT highT unseen).take (minTotal - (highlyOf scoreOf alsoT highT unseen).length) ++
           (alsoOf scoreOf alsoT highT unseen).drop (minTotal - (highlyOf scoreOf alsoT highT unseen).length)) by
        rw [List.take_append_drop]
        exact hpa)
      have hle := hsplit.2.2 q hqt _ hzdrop
      rw [hscoreR] at hle
      exact hle

/-- Witness for C3 at the second concrete scenario of the spec. -/
theorem c3_witness :
    setScore (fun p => if p.id = some "e1" then 9 else if p.id = some "e2" then 8 else if p.id = some "e3" then 6 else 4)
        { id := some "e1", doi := none, title := "E1", date := none, score := none, summary := none } ∈
      scoreStage (fun p => if p.id = some "e1" then 9 else if p.id = some "e2" then 8 else if p.id = some "e3" then 6 else 4) 5 7 3
        [{ id := some "e1", doi := none, title := "E1", date := none, score := none, summary := none },
         { id := some "e2", doi := none, title := "E2", date := none, score := none, summary := none },
         { id := some "e3", doi := none, title := "E3", date := none, score := none, summary := none },
         { id := some "e4", doi := none, title := "E4", date := none, score := none, summary := none }] :=
  (c3_tier_selection (fun p => if p.id = some "e1" then 9 else if p.id = some "e2" then 8 else if p.id = some "e3" then 6 else 4) 5 7 3
      [{ id := some "e1", doi := none, title := "E1", date := none, score := none, summary := none },
       { id := some "e2", doi := none, title := "E2", date := none, score := none, summary := none },
       { id := some "e3", doi := none, title := "E3", date := none, score := none, summary := none },
       { id := some "e4", doi := none, title := "E4", date := none, score := none, summary := none }]
      (by decide)).1.1
    { id := some "e1", doi := none, title := "E1", date := none, score := none, summary := none }
    (by decide) (by decide)

-- The pipeline (run.py, main): cleanup, aggregate (given), unseen filter,
-- optional relevance tiering (with fail-open fallback), truncation,
-- summarisation (external LLM, given), e-mail publish (external, given
-- outcome), and - only on publish success - mark_as_sent.

/-- Outcome of the publish step: `send_digest` returned `True`,
returned `False`, or raised (the `except` arm of `run.py`). -/
inductive PublishOutcome
  | success
  | failure
  | raised
deriving DecidableEq

/-- What one `main` run produces: the final in-memory store, the
documents written, the computed `unseen_papers` list and the ids passed
to `mark_as_sent` (empty when it was not called). -/
structure RunResult where
  state : SMState
  writes : List SMState
  unseen : List Paper
  marked : List String
deriving DecidableEq

/-- `[p.get('id') for p in papers_with_summaries if p.get('id')]`. -/
def sentIds (papers : List Paper) : List String :=
  papers.filterMap (fun p =>
    match p.id with
    | none => none
    | some i => if i = "" then none else some i)

/-- The metadata dict comprehension of `run.py`: maps each truthy id to
`{'title': ...}`; a duplicated id keeps the last paper's title. -/
def sentMeta (papers : List Paper) (i : String) : Option String :=
  ((papers.filter (fun p => decide (p.id = some i))).getLast?).map Paper.title

/-- `main` (run.py): the pipeline stages that touch the state store,
with every external collaborator given as an argument: `parse`/`nowTs`/
`nowIso` the datetime library, `scoreOf` the LLM judge (with `useRel`
the config toggle and `relFails` a raised relevance stage, which falls
open to the whole unseen list), `summarize` the LLM summariser (`none`
models a failed summary, dropping the paper), `recipientsNonempty` the
recipients check, `emailCtorRaises` an `EmailSender` constructor or
`send_digest` raise, and `outcome` the publish result.  Aggregation
results `agg` stand for `search_papers(config)`. -/
def mainRun (parse : String → Option Int) (nowTs : Int) (nowIso : String)
    (useRel : Bool) (relFails : Bool) (scoreOf : Paper → ℚ) (alsoT highT : ℚ) (minTotal : ℕ)
    (maxSummaries : ℕ) (summarize : Paper → Option String)
    (recipientsNonempty : Bool) (emailCtorRaises : Bool) (outcome : PublishOutcome)
    (s0 : SMState) (agg : List Paper) : RunResult :=
  let c := cleanup_old_entries parse nowTs 30 s0
  let s1 := c.state
  let w1 := c.writes
  if agg.isEmpty then { state := s1, writes := w1, unseen := [], marked := [] }
  else
    let unseen := filter_unseen s1 agg
    if unseen.isEmpty then { state := s1, writes := w1, unseen := unseen, marked := [] }
    else
      let toProcess := if useRel then (if relFails then unseen else scoreStage scoreOf alsoT highT minTotal unseen) else unseen
      if useRel && !relFails && toProcess.isEmpty then { state := s1, writes := w1, unseen := unseen, marked := [] }
      else
        let toSummarize := toProcess.take maxSummaries
        let withSummaries := toSummarize.filterMap (fun p => (summarize p).map (fun sm => { p with summary := some sm }))
        if withSummaries.isEmpty then { state := s1, writes := w1, unseen := unseen, marked := [] }
        else if !recipientsNonempty then { state := s1, writes := w1, unseen := unseen, marked := [] }
        else if emailCtorRaises then { state := s1, writes := w1, unseen := unseen, marked := [] }
        else
          match outcome with
          | PublishOutcome.success =>
            let m := mark_as_sent nowIso (sentIds withSummaries) (sentMeta withSummaries) s1
            { state := m.state, writes := w1 ++ m.writes, unseen := unseen, marked := sentIds withSummaries }
          | _ => { state := s1, writes := w1, unseen := unseen, marked := [] }

theorem mainRun_not_success_frame (parse : String → Option Int) (nowTs : Int) (nowIso : String)
    (useRel relFails : Bool) (scoreOf : Paper → ℚ) (alsoT highT : ℚ) (minTotal maxSummaries : ℕ)
    (summarize : Paper → Option String) (recipOk ctorRaises : Bool) (outcome : PublishOutcome)
    (s0 : SMState) (agg : List Paper) (houtcome : outcome ≠ PublishOutcome.success) :
    (mainRun parse nowTs nowIso useRel relFails scoreOf alsoT highT minTotal maxSummaries summarize recipOk ctorRaises outcome s0 agg).state
        = (cleanup_old_entries parse nowTs 30 s0).state ∧
    (mainRun parse nowTs nowIso useRel relFails scoreOf alsoT highT minTotal maxSummaries summarize recipOk ctorRaises outcome s0 agg).marked = [] ∧
    (mainRun parse nowTs nowIso useRel relFails scoreOf alsoT highT minTotal maxSummaries summarize recipOk ctorRaises outcome s0 agg).unseen
        = (if agg.isEmpty then [] else filter_unseen (cleanup_old_entries parse nowTs 30 s0).state agg) := by
  cases outcome with
  | success => exact absurd rfl houtcome
  | failure =>
    refine ⟨?_, ?_, ?_⟩
    · simp only [mainRun]
      repeat' split
      all_goals rfl
    · simp only [mainRun]
      repeat' split
      all_goals rfl
    · simp only [mainRun]
      by_cases hagg : agg.isEmpty = true
      · rw [if_pos hagg, if_pos hagg]
      · rw [if_neg hagg, if_neg hagg]
        repeat' split
        all_goals rfl
  | raised =>
    refine ⟨?_, ?_, ?_⟩
    · simp only [mainRun]
      repeat' split
      all_goals rfl
    · simp only [mainRun]
      repeat' split
      all_goals rfl
    · simp only [mainRun]
      by_cases hagg : agg.isEmpty = true
      · rw [if_pos hagg, if_pos hagg]
      · rw [if_neg hagg, if_neg hagg]
        repeat' split
        all_goals rfl

theorem mainRun_unseen_eq (parse : String → Option Int) (nowTs : Int) (nowIso : String)
    (useRel relFails : Bool) (scoreOf : Paper → ℚ) (alsoT highT : ℚ) (minTotal maxSummaries : ℕ)
    (summarize : Paper → Option String) (recipOk ctorRaises : Bool) (outcome : PublishOutcome)
    (s0 : SMState) (agg : List Paper) :
    (mainRun parse nowTs nowIso useRel relFails scoreOf alsoT highT minTotal maxSummaries summarize recipOk ctorRaises outcome s0 agg).unseen
        = (if agg.isEmpty then [] else filter_unseen (cleanup_old_entries parse nowTs 30 s0).state agg) := by
  cases outcome
  all_goals
    simp only [mainRun]
    by_cases hagg : agg.isEmpty = true
    · rw [if_pos hagg, if_pos hagg]
    · rw [if_neg hagg, if_neg hagg]
      repeat' split
      all_goals rfl

/-- Claim C1: mark_as_sent runs only after a successful publish.  When
the publish step fails (send_digest returns False) or raises, the run
writes no paper id to the store (final keys are a subset of the initial
keys: only the leading retention cleanup may remove entries), marks
nothing, leaves `last_run` unchanged, and a later run over the same
aggregate input - of any configuration - recomputes the very same
unseen set, provided its own retention cleanup removes nothing further
(e.g. it runs at the same clock time, cleanup being idempotent). -/
theorem c1_publish_failure_preserves_state (parse : String → Option Int) (nowTs : Int) (nowIso : String)
    (useRel relFails : Bool) (scoreOf : Paper → ℚ) (alsoT highT : ℚ) (minTotal maxSummaries : ℕ)
    (summarize : Paper → Option String) (recipOk ctorRaises : Bool) (outcome : PublishOutcome)
    (s0 : SMState) (agg : List Paper) (houtcome : outcome ≠ PublishOutcome.success)
    (nowTs2 : Int) (nowIso2 : String) (useRel2 relFails2 : Bool) (scoreOf2 : Paper → ℚ)
    (alsoT2 highT2 : ℚ) (minTotal2 maxSummaries2 : ℕ) (summarize2 : Paper → Option String)
    (recipOk2 ctorRaises2 : Bool) (outcome2 : PublishOutcome) :
    (∀ i, i ∈ (mainRun parse nowTs nowIso useRel relFails scoreOf alsoT highT minTotal maxSummaries summarize recipOk ctorRaises outcome s0 agg).state.papers.map Prod.fst →
        i ∈ s0.papers.map Prod.fst) ∧
    (mainRun parse nowTs nowIso useRel relFails scoreOf alsoT highT minTotal maxSummaries summarize recipOk ctorRaises outcome s0 agg).marked = [] ∧
    (mainRun parse nowTs nowIso useRel relFails scoreOf alsoT highT minTotal maxSummaries summarize recipOk ctorRaises outcome s0 agg).state.last_run = s0.last_run ∧
    ((cleanup_old_entries parse nowTs2 30 (mainRun parse nowTs nowIso useRel relFails scoreOf alsoT highT minTotal maxSummaries summarize recipOk ctorRaises outcome s0 agg).state).state
        = (mainRun parse nowTs nowIso useRel relFails scoreOf alsoT highT minTotal maxSummaries summarize recipOk ctorRaises outcome s0 agg).state →
      (mainRun parse nowTs2 nowIso2 useRel2 relFails2 scoreOf2 alsoT2 highT2 minTotal2 maxSummaries2 summarize2 recipOk2 ctorRaises2 outcome2
          (mainRun parse nowTs nowIso useRel relFails scoreOf alsoT highT minTotal maxSummaries summarize recipOk ctorRaises outcome s0 agg).state agg).unseen
        = (mainRun parse nowTs nowIso useRel relFails scoreOf alsoT highT minTotal maxSummaries summarize recipOk ctorRaises outcome s0 agg).unseen) := by
  obtain ⟨hstate, hmarked, hunseen⟩ :=
    mainRun_not_success_frame parse nowTs nowIso useRel relFails scoreOf alsoT highT minTotal maxSummaries summarize recipOk ctorRaises outcome s0 agg houtcome
  refine ⟨?_, hmarked, ?_, ?_⟩
  · intro i hi
    rw [hstate] at hi
    have hsub : ((cleanup_old_entries parse nowTs 30 s0).state.papers).Sublist s0.papers :=
      List.filter_sublist _
    exact List.Sublist.mem hi (hsub.map Prod.fst)
  · rw [hstate]
    rfl
  · intro h2
    rw [mainRun_unseen_eq parse nowTs2 nowIso2 useRel2 relFails2 scoreOf2 alsoT2 highT2 minTotal2 maxSummaries2 summarize2 recipOk2 ctorRaises2 outcome2 _ agg,
      hunseen, h2, hstate]

/-- Witness for C1: a failed publish at a concrete one-entry store and
two-paper aggregate; rerunning at the same clock reproduces the unseen
set. -/
theorem c1_witness :
    (mainRun (fun d => if d = "D" then some 100 else none) 200 "T" false false (fun _ => 0) 0 0 0 5 (fun _ => some "s") true false PublishOutcome.failure
        { papers := [("x", { sent_date := some "D", title := none })], last_run := some "L" }
        [{ id := some "x", doi := none, title := "X", date := none, score := none, summary := none },
         { id := some "y", doi := none, title := "Y", date := none, score := none, summary := none }]).marked = [] ∧
    (mainRun (fun d => if d = "D" then some 100 else none) 200 "T" false false (fun _ => 0) 0 0 0 5 (fun _ => some "s") true false PublishOutcome.failure
        { papers := [("x", { sent_date := some "D", title := none })], last_run := some "L" }
        [{ id := some "x", doi := none, title := "X", date := none, score := none, summary := none },
         { id := some "y", doi := none, title := "Y", date := none, score := none, summary := none }]).state.last_run = some "L" ∧
    (mainRun (fun d => if d = "D" then some 100 else none) 200 "T2" false false (fun _ => 0) 0 0 0 5 (fun _ => some "s") true false PublishOutcome.failure
        (mainRun (fun d => if d = "D" then some 100 else none) 200 "T" false false (fun _ => 0) 0 0 0 5 (fun _ => some "s") true false PublishOutcome.failure
          { papers := [("x", { sent_date := some "D", title := none })], last_run := some "L" }
          [{ id := some "x", doi := none, title := "X", date := none, score := none, summary := none },
           { id := some "y", doi := none, title := "Y", date := none, score := none, summary := none }]).state
        [{ id := some "x", doi := none, title := "X", date := none, score := none, summary := none },
         { id := some "y", doi := none, title := "Y", date := none, score := none, summary := none }]).unseen
      = (mainRun (fun d => if d = "D" then some 100 else none) 200 "T" false false (fun _ => 0) 0 0 0 5 (fun _ => some "s") true false PublishOutcome.failure
          { papers := [("x", { sent_date := some "D", title := none })], last_run := some "L" }
          [{ id := some "x", doi := none, title := "X", date := none, score := none, summary := none },
           { id := some "y", doi := none, title := "Y", date := none, score := none, summary := none }]).unseen := by
  have h := c1_publish_failure_preserves_state (fun d => if d = "D" then some 100 else none) 200 "T" false false (fun _ => 0) 0 0 0 5 (fun _ => some "s") true false PublishOutcome.failure
    { papers := [("x", { sent_date := some "D", title := none })], last_run := some "L" }
    [{ id := some "x", doi := none, title := "X", date := none, score := none, summary := none },
     { id := some "y", doi := none, title := "Y", date := none, score := none, summary := none }]
    (by decide) 200 "T2" false false (fun _ => 0) 0 0 0 5 (fun _ => some "s") true false PublishOutcome.failure
  exact ⟨h.2.1, h.2.2.1.trans rfl, h.2.2.2 (by decide)⟩

-- Connectors (search_arxiv.py, search_crossref.py,
-- search_semantic_scholar.py): the post-response processing that decides
-- which candidates are emitted.  HTTP transport, feed parsing and the
-- datetime library are external; the parsed response items and the date
-- functions are arguments.  Author, abstract and url computations only
-- populate presentation fields omitted from `Paper` and cannot reject a
-- candidate; they are not repeated here.

/-- Python `str.strip()`. -/
def pyStrip (s : String) : String :=
  String.mk (((s.toList.dropWhile Char.isWhitespace).reverse.dropWhile Char.isWhitespace).reverse)

/-- Python `str.replace('\n', ' ')`. -/
def pyReplaceNL (s : String) : String :=
  String.mk (s.toList.map (fun c => if c = '\n' then ' ' else c))

/-- `ArxivSearcher._extract_arxiv_id`: empty url yields `""`; otherwise
the last `/`-component up to the first `v` (`parts[-1].split('v')[0]`;
the `len(parts) > 0` guard always holds since `split` never returns an
empty list, so the trailing `return url` is unreachable). -/
def extract_arxiv_id (url : String) : String :=
  if url = "" then ""
  else (((url.splitOn "/").getLastD "").splitOn "v").headD ""

/-- One parsed Atom feed entry (the `entry.get` keys the loop reads). -/
structure AtomEntry where
  idUrl : String
  published : String
  title : String
  summaryText : String
deriving DecidableEq

/-- The record built for one arXiv feed entry (`dateStr` is
`published_date.isoformat()` or `''`). -/
def arxivEntryPaper (dateStr : String) (entry : AtomEntry) : Paper :=
  { id := some (extract_arxiv_id entry.idUrl)
    doi := none
    title := pyReplaceNL (pyStrip entry.title)
    date := some dateStr
    score := none
    summary := none }

/-- The entry loop of `ArxivSearcher.search`: an entry whose parsed date
is older than the cutoff is skipped; an entry whose date cannot be
parsed (`_parse_date` returns `None`, a falsy value) passes the window
check and is emitted with an empty date; every emitted entry becomes a
record UNCONDITIONALLY, whether or not `_extract_arxiv_id` resolved a
non-empty id. -/
def arxivProcessEntries (parseDate : String → Option Int) (isoOf : Int → String) (cutoff : Int) (entries : List AtomEntry) : List Paper :=
  entries.foldl (fun papers entry =>
    match parseDate entry.published with
    | some d => if d < cutoff then papers else papers ++ [arxivEntryPaper (isoOf d) entry]
    | none => papers ++ [arxivEntryPaper "" entry]) []

/-- One Crossref response item (the keys `_extract_paper_info` reads for
emission decisions and retained fields). -/
structure CrItem where
  doi : String
  title : List String
  dateParts : List (List Int)
deriving DecidableEq

def joinSpace (l : List String) : String := String.intercalate " " l

/-- `CrossrefSearcher._extract_paper_info`: returns `None` when the item
has no DOI or no title; `mkDate y m d` is `datetime(y, m, d).isoformat()`,
with `none` modelling the raised `ValueError` that the enclosing `try`
turns into a dropped candidate.  `(date_parts[0] + [1, 1])[:3]` pads a
partial date. -/
def extract_paper_info (mkDate : Int → Int → Int → Option String) (item : CrItem) : Option Paper :=
  if item.doi = "" then none
  else
    if joinSpace item.title = "" then none
    else
      match (if item.dateParts ≠ [] ∧ item.dateParts.headD [] ≠ [] then
          (match mkDate (((item.dateParts.headD [] ++ [1, 1]).take 3).getD 0 0)
                        (((item.dateParts.headD [] ++ [1, 1]).take 3).getD 1 0)
                        (((item.dateParts.headD [] ++ [1, 1]).take 3).getD 2 0) with
           | none => none
           | some ds => some (some ds))
        else some none : Option (Option String)) with
      | none => none
      | some published =>
        some { id := some item.doi
               doi := some item.doi
               title := pyStrip (joinSpace item.title)
               date := some (published.getD "")
               score := none
               summary := none }

/-- The item loop of `CrossrefSearcher.search`: falsy extraction results
are not appended. -/
def crossrefProcessItems (mkDate : Int → Int → Int → Option String) (items : List CrItem) : List Paper :=
  items.filterMap (extract_paper_info mkDate)

/-- One Semantic Scholar response item. -/
structure S2Item where
  paperId : String
  title : String
  publicationDate : Option String
deriving DecidableEq

/-- The item loop of `SemanticScholarSearcher.search`: skips items
without a truthy `publicationDate`, with an unparseable one (`strptime`
raising, `parseYmd` returning `none`), or older than the cutoff; the
emitted id is always the literal prefix `s2:` followed by the possibly
empty `paperId`. -/
def s2Process (parseYmd : String → Option Int) (cutoff : Int) (items : List S2Item) : List Paper :=
  items.foldl (fun papers item =>
    match item.publicationDate with
    | none => papers
    | some ds =>
      if ds = "" then papers
      else
        match parseYmd ds with
        | none => papers
        | some d =>
          if d < cutoff then papers
          else papers ++ [{ id := some ("s2:" ++ item.paperId), doi := none, title := item.title, date := some ds, score := none, summary := none }]) []

-- C9 ---------------------------------------------------------------------

/-- Counterexample to claim C9 as stated: an arXiv feed entry whose id
URL is missing (extracted id `""`) and whose date passes the lookback
window is still emitted by the connector, as a record with an empty id -
it is not dropped. -/
theorem c9_arxiv_empty_id_emitted_cex :
    (let entry : AtomEntry := { idUrl := "", published := "2024-05-02", title := "T", summaryText := "" }
     let parseDate : String → Option Int := fun s => if s = "2024-05-02" then some 100 else none
     let isoOf : Int → String := fun _ => "2024-05-02T00:00:00"
     arxivProcessEntries parseDate isoOf 0 [entry]
       = [{ id := some "", doi := none, title := "T", date := some "2024-05-02T00:00:00", score := none, summary := none }]) := by
  decide

/-- Claim C9 (amended): the Crossref connector emits a record only when
the item's DOI resolves to a non-empty string (unresolved-DOI candidates
are dropped); the arXiv connector does NOT drop candidates with an
unresolved id - it emits one record for every entry that passes the date
window, id resolved or not; the Semantic Scholar connector's emitted id
is always the prefix `s2:` followed by the raw `paperId`, which is never
checked for emptiness. -/
theorem c9_identity_gating_amended (mkDate : Int → Int → Int → Option String) (items : List CrItem)
    (parseDate : String → Option Int) (isoOf : Int → String) (cutoff : Int) (entries : List AtomEntry)
    (parseYmd : String → Option Int) (cutoff2 : Int) (s2items : List S2Item) :
    (∀ p ∈ crossrefProcessItems mkDate items, ∃ d, p.doi = some d ∧ d ≠ "") ∧
    ((arxivProcessEntries parseDate isoOf cutoff entries).length
       = entries.countP (fun e =>
           match parseDate e.published with
           | some d => decide (¬ d < cutoff)
           | none => true)) ∧
    (∀ p ∈ s2Process parseYmd cutoff2 s2items, ∃ t, p.id = some ("s2:" ++ t)) := by
  refine ⟨?_, ?_, ?_⟩
  · intro p hp
    obtain ⟨item, hitem, hex⟩ := List.mem_filterMap.mp hp
    by_cases hdoi : item.doi = ""
    · simp only [extract_paper_info] at hex
      rw [if_pos hdoi] at hex
      exact Option.noConfusion hex
    · refine ⟨item.doi, ?_, hdoi⟩
      simp only [extract_paper_info] at hex
      rw [if_neg hdoi] at hex
      by_cases htitle : joinSpace item.title = ""
      · rw [if_pos htitle] at hex
        exact Option.noConfusion hex
      · rw [if_neg htitle] at hex
        rcases hstep : (if item.dateParts ≠ [] ∧ item.dateParts.headD [] ≠ [] then
            (match mkDate (((item.dateParts.headD [] ++ [1, 1]).take 3).getD 0 0)
                          (((item.dateParts.headD [] ++ [1, 1]).take 3).getD 1 0)
                          (((item.dateParts.headD [] ++ [1, 1]).take 3).getD 2 0) with
             | none => none
             | some ds => some (some ds))
          else some none : Option (Option String)) with _ | published
        · rw [hstep] at hex
          exact Option.noConfusion hex
        · rw [hstep] at hex
          have hinj := Option.some.inj hex
          rw [← hinj]
  · have haux : ∀ (es : List AtomEntry) (acc : List Paper),
        (es.foldl (fun papers entry =>
          match parseDate entry.published with
          | some d => if d < cutoff then papers else papers ++ [arxivEntryPaper (isoOf d) entry]
          | none => papers ++ [arxivEntryPaper "" entry]) acc).length
          = acc.length + es.countP (fun e =>
              match parseDate e.published with
              | some d => decide (¬ d < cutoff)
              | none => true) := by
      intro es
      induction es with
      | nil =>
        intro acc
        simp
      | cons e rest ih =>
        intro acc
        simp only [List.foldl_cons, List.countP_cons]
        cases hpd : parseDate e.published with
        | none =>
          simp only [hpd, ih, List.length_append]
          simp
          omega
        | some d =>
          simp only [hpd]
          by_cases hd : d < cutoff
          · rw [if_pos hd, ih]
            simp [hd]
          · rw [if_neg hd, ih]
            simp [hd, List.length_append]
            omega
    simpa using haux entries []
  · have haux : ∀ (its : List S2Item) (acc : List Paper),
        (∀ p ∈ acc, ∃ t, p.id = some ("s2:" ++ t)) →
          ∀ p ∈ its.foldl (fun papers item =>
              match item.publicationDate with
              | none => papers
              | some ds =>
                if ds = "" then papers
                else
                  match parseYmd ds with
                  | none => papers
                  | some d =>
                    if d < cutoff2 then papers
                    else papers ++ [{ id := some ("s2:" ++ item.paperId), doi := none, title := item.title, date := some ds, score := none, summary := none }]) acc,
            ∃ t, p.id = some ("s2:" ++ t) := by
      intro its
      induction its with
      | nil => intro acc hacc; exact hacc
      | cons item rest ih =>
        intro acc hacc
        simp only [List.foldl_cons]
        apply ih
        cases hpub : item.publicationDate with
        | none => simpa [hpub] using hacc
        | some ds =>
          simp only [hpub]
          by_cases hds : ds = ""
          · rw [if_pos hds]
            exact hacc
          · rw [if_neg hds]
            cases hpy : parseYmd ds with
            | none => exact hacc
            | some d =>
              show ∀ p ∈ (if d < cutoff2 then acc
                  else acc ++ [{ id := some ("s2:" ++ item.paperId), doi := none, title := item.title, date := some ds, score := none, summary := none }]),
                ∃ t, p.id = some ("s2:" ++ t)
              by_cases hd : d < cutoff2
              · rw [if_pos hd]
                exact hacc
              · rw [if_neg hd]
                intro p hp
                rcases List.mem_append.mp hp with hmem | hmem
                · exact hacc p hmem
                · rw [List.mem_singleton.mp hmem]
                  exact ⟨item.paperId, rfl⟩
    intro p hp
    exact haux s2items [] (by intro q hq; cases hq) p hp

/-- Witness for the amended C9 at one concrete arXiv entry whose id does
not resolve: the entry is still counted among the emitted records. -/
theorem c9_witness :
    (arxivProcessEntries (fun s => if s = "2024-05-02" then some 100 else none) (fun _ => "2024-05-02T00:00:00") 0
        [{ idUrl := "", published := "2024-05-02", title := "T", summaryText := "" }]).length
      = [({ idUrl := "", published := "2024-05-02", title := "T", summaryText := "" } : AtomEntry)].countP (fun e =>
          match (fun s => if s = "2024-05-02" then some (100 : Int) else none) e.published with
          | some d => decide (¬ d < 0)
          | none => true) := by
  have h := c9_identity_gating_amended (fun _ _ _ => some "2024-01-01T00:00:00")
    [{ doi := "10.1/x", title := ["T"], dateParts := [[]] }]
    (fun s => if s = "2024-05-02" then some 100 else none) (fun _ => "2024-05-02T00:00:00") 0
    [{ idUrl := "", published := "2024-05-02", title := "T", summaryText := "" }]
    (fun _ => none) 0 []
  exact h.2.1
